import Mathlib

/-!
# Verification of the offline-resilience core of the stupify extension

Shallow embedding of the explanation cache, durable offline storage,
background sync engine and offline-aware request gateway
(src/services/cache.ts, src/services/offlineStorage.ts,
src/services/backgroundSync.ts, src/services/offlineAPI.ts).

Conventions of the embedding:
* timestamps are natural numbers of milliseconds (the current time is an
  explicit argument wherever the source reads the clock);
* the JavaScript string operations used by the core (trim, toLowerCase,
  split on a space, code-unit comparison) are modelled structurally on
  the character list of a `String`, so that the kernel can evaluate them;
  the inputs of interest are ASCII, where the models agree with JS;
* JavaScript float comparisons of similarity scores are modelled by exact
  rational comparison, written as cross-multiplied Nat arithmetic
  (`i / m > 0.6` becomes `5 * i > 3 * m`); for the scores that occur
  (small numerator and denominator) IEEE double comparison against the
  double literals 0.6, 0.7 and 1.0 agrees with the exact comparison,
  because 0.6 and 0.7 round to doubles strictly below 3/5 and 7/10 while
  every distinct pair of candidate scores differs by far more than an ulp;
* IndexedDB stores are lists of records together with the semantics of
  key-ordered iteration (cursors and getAll deliver records in ascending
  key order);
* network calls and their outcomes are oracles passed in as arguments,
  and every network attempt is recorded in the function's output, so that
  statements about "no network call" are expressible.
-/

namespace Stupify

/-- The complexity tier, `'5yo' | 'normal' | 'advanced'` of shared/types.ts. -/
inductive ComplexityLevel : Type
| fiveYO : ComplexityLevel
| normal : ComplexityLevel
| advanced : ComplexityLevel
deriving DecidableEq, Repr

/-- `CachedExplanation` of shared/types.ts (the fields used by the core). -/
structure CachedExplanation : Type where
  question : String
  answer : String
  complexity_level : ComplexityLevel
  cached_at : Nat
deriving DecidableEq, Repr

/-- Whitespace for the purposes of `trim()` (the inputs of interest are
ASCII, where this agrees with JS). -/
def isWS (c : Char) : Bool := c = ' ' || c = '\t' || c = '\r' || c = '\n'

/-- `s.trim()` on the character list. -/
def trimChars (l : List Char) : List Char :=
  ((l.dropWhile isWS).reverse.dropWhile isWS).reverse

/-- `s.toLowerCase()` on the character list (ASCII case mapping). -/
def toLowerChars (l : List Char) : List Char := l.map Char.toLower

/-- `question.trim().toLowerCase()`, the normalization applied on every
store and every lookup. -/
def normalize (q : String) : String := String.mk (toLowerChars (trimChars q.data))

/-- `s.split(' ')` on the character list: splits at every single space,
consecutive spaces produce empty fragments, the empty string yields
one empty fragment — exactly the JS semantics. -/
def splitOnSpace : List Char → List (List Char)
| [] => [[]]
| c :: cs =>
  match splitOnSpace cs with
  | [] => [[c]]
  | w :: ws => if c = ' ' then [] :: w :: ws else (c :: w) :: ws

/-- The token set used by both similarity measures:
`new Set(q.split(' ').filter(w => w.length > 3))`.  The list holds the
set's distinct elements; only its length and membership are ever used. -/
def tokenSet (q : String) : List (List Char) :=
  ((splitOnSpace q.data).filter (fun w => 3 < w.length)).dedup

/-- Size of the intersection of two token sets,
`new Set([...words1].filter(w => words2.has(w))).size`. -/
def interSize (q1 q2 : String) : Nat :=
  ((tokenSet q1).filter (fun w => w ∈ tokenSet q2)).length

namespace CacheService

/-- `MAX_CACHE_SIZE` of cache.ts. -/
def MAX_CACHE_SIZE : Nat := 10

/-- `CACHE_EXPIRY` of cache.ts: 7 days in milliseconds. -/
def CACHE_EXPIRY : Nat := 7 * 24 * 60 * 60 * 1000

/-- `CacheService.isExpired`: `Date.now() - item.cached_at > CACHE_EXPIRY`
(truncated subtraction agrees with JS: a negative age is not above expiry). -/
def isExpired (now : Nat) (item : CachedExplanation) : Bool :=
  CACHE_EXPIRY < now - item.cached_at

/-- `CacheService.isSimilar`: false when either token set is empty, else
`intersection.size / Math.min(words1.size, words2.size) > 0.6`, written
cross-multiplied. -/
def isSimilar (q1 q2 : String) : Bool :=
  let s1 := (tokenSet q1).length
  let s2 := (tokenSet q2).length
  if s1 = 0 ∨ s2 = 0 then false
  else decide (3 * min s1 s2 < 5 * interSize q1 q2)

/-- `CacheService.add`: normalize, drop any entry with the same
(question, tier), unshift to the front, truncate to `MAX_CACHE_SIZE`. -/
def add (now : Nat) (question answer : String) (complexityLevel : ComplexityLevel)
    (cache : List CachedExplanation) : List CachedExplanation :=
  let cached : CachedExplanation :=
    ⟨normalize question, answer, complexityLevel, now⟩
  let filtered := cache.filter (fun item =>
    ¬ (item.question = cached.question ∧
       item.complexity_level = cached.complexity_level))
  (cached :: filtered).take MAX_CACHE_SIZE

/-- The fuzzy-search arm of `CacheService.get`: the first live same-tier
entry whose similarity with the normalized query passes `isSimilar`. -/
def similarMatch (now : Nat) (cache : List CachedExplanation)
    (nq : String) (complexityLevel : ComplexityLevel) : Option CachedExplanation :=
  cache.find? (fun item =>
    item.complexity_level = complexityLevel ∧
    isExpired now item = false ∧
    isSimilar nq item.question = true)

/-- `CacheService.get`: exact-match lookup for the same tier, returned when
not expired, else the first fuzzy match among live same-tier entries. -/
def get (now : Nat) (cache : List CachedExplanation)
    (question : String) (complexityLevel : ComplexityLevel) : Option CachedExplanation :=
  let nq := normalize question
  match cache.find? (fun item =>
      item.question = nq ∧ item.complexity_level = complexityLevel) with
  | some exact =>
      if isExpired now exact = false then some exact
      else similarMatch now cache nq complexityLevel
  | none => similarMatch now cache nq complexityLevel

end CacheService

/-- No two cache entries share a (question, tier) pair. -/
def pairwiseDistinctKeys (cache : List CachedExplanation) : Prop :=
  cache.Pairwise (fun e1 e2 =>
    ¬ (e1.question = e2.question ∧ e1.complexity_level = e2.complexity_level))

namespace OfflineStorage

/-- `MAX_EXPLANATIONS` of offlineStorage.ts. -/
def MAX_EXPLANATIONS : Nat := 100

/-- `MAX_QUEUE_SIZE` of offlineStorage.ts. -/
def MAX_QUEUE_SIZE : Nat := 50

/-- `CACHE_EXPIRY` of offlineStorage.ts: 30 days in milliseconds. -/
def CACHE_EXPIRY : Nat := 30 * 24 * 60 * 60 * 1000

/-- A similarity score as an exact fraction (numerator, positive
denominator).  `calculateSimilarity` of offlineStorage.ts: 1.0 on equal
strings, 0 when a token set is empty, else intersection size over
`Math.max(words1.size, words2.size)`. -/
def calculateSimilarity (q1 q2 : String) : Nat × Nat :=
  if q1 = q2 then (1, 1)
  else
    let s1 := (tokenSet q1).length
    let s2 := (tokenSet q2).length
    if s1 = 0 ∨ s2 = 0 then (0, 1)
    else (interSize q1 q2, max s1 s2)

/-- `score === 1.0` on an exact fraction. -/
def scoreEqOne (s : Nat × Nat) : Bool := s.1 = s.2

/-- `score > 0.7` on an exact fraction, cross-multiplied. -/
def scoreAboveThreshold (s : Nat × Nat) : Bool := 7 * s.2 < 10 * s.1

/-- `a > b` for two exact fractions, cross-multiplied. -/
def scoreGt (a b : Nat × Nat) : Bool := b.1 * a.2 < a.1 * b.2

/-- The `explanations` object store: records keyed by an auto-increment
primary key, kept here in insertion (= key) order together with the next
key to assign. -/
structure ExplanationStore : Type where
  nextId : Nat
  entries : List (Nat × CachedExplanation)
deriving DecidableEq, Repr

/-- A freshly opened, empty explanations store. -/
def emptyExplanations : ExplanationStore := ⟨1, []⟩

/-- Iteration order of a cursor over the `question` index: ascending by
question (IndexedDB string keys compare by code unit), ties by primary
key. -/
def questionKeyLE (a b : Nat × CachedExplanation) : Prop :=
  a.2.question.data < b.2.question.data ∨
    (a.2.question.data = b.2.question.data ∧ a.1 ≤ b.1)

instance : DecidableRel questionKeyLE := fun a b => by
  unfold questionKeyLE; infer_instance

/-- The records of the store as a cursor over the `question` index
delivers them. -/
def byQuestionOrder (entries : List (Nat × CachedExplanation)) :
    List (Nat × CachedExplanation) :=
  List.insertionSort questionKeyLE entries

/-- Iteration order of a cursor over the `timestamp` index: ascending by
`cached_at`, ties by primary key. -/
def timestampKeyLE (a b : Nat × CachedExplanation) : Prop :=
  a.2.cached_at < b.2.cached_at ∨
    (a.2.cached_at = b.2.cached_at ∧ a.1 ≤ b.1)

instance : DecidableRel timestampKeyLE := fun a b => by
  unfold timestampKeyLE; infer_instance

/-- The records of the store as a cursor over the `timestamp` index
delivers them. -/
def byTimestampOrder (entries : List (Nat × CachedExplanation)) :
    List (Nat × CachedExplanation) :=
  List.insertionSort timestampKeyLE entries

/-- The cursor loop of `getCachedExplanation`: skip expired records,
return a same-tier record with score 1.0 immediately, otherwise keep the
best same-tier record scoring strictly above the previous best and above
0.7, and deliver it when the cursor is exhausted. -/
def getLoop (now : Nat) (nq : String) (complexityLevel : ComplexityLevel)
    (best : Option CachedExplanation) (bestScore : Nat × Nat) :
    List (Nat × CachedExplanation) → Option CachedExplanation
| [] => best
| e :: rest =>
  if CACHE_EXPIRY < now - e.2.cached_at then
    getLoop now nq complexityLevel best bestScore rest
  else if e.2.complexity_level = complexityLevel then
    if scoreEqOne (calculateSimilarity nq e.2.question) then some e.2
    else if scoreGt (calculateSimilarity nq e.2.question) bestScore ∧
        scoreAboveThreshold (calculateSimilarity nq e.2.question) then
      getLoop now nq complexityLevel (some e.2) (calculateSimilarity nq e.2.question) rest
    else
      getLoop now nq complexityLevel best bestScore rest
  else
    getLoop now nq complexityLevel best bestScore rest

/-- `OfflineStorage.getCachedExplanation`: normalize the question and run
the cursor loop over the `question` index with empty accumulators
(`bestMatch = null`, `bestScore = 0`). -/
def getCachedExplanation (now : Nat) (store : ExplanationStore)
    (question : String) (complexityLevel : ComplexityLevel) :
    Option CachedExplanation :=
  getLoop now (normalize question) complexityLevel none (0, 1)
    (byQuestionOrder store.entries)

/-- `OfflineStorage.cleanOldExplanations`: delete the first `count`
records in `timestamp`-index order. -/
def cleanOldExplanations (count : Nat)
    (entries : List (Nat × CachedExplanation)) :
    List (Nat × CachedExplanation) :=
  let victims := ((byTimestampOrder entries).take count).map (fun e => e.1)
  entries.filter (fun e => e.1 ∉ victims)

/-- `OfflineStorage.cacheExplanation`: normalize and stamp the record; if
the store already holds at least `MAX_EXPLANATIONS` records, first delete
the 5 oldest; then add the record under a fresh auto-increment key.  No
record with the same (question, tier) is removed. -/
def cacheExplanation (now : Nat) (store : ExplanationStore)
    (question answer : String) (complexityLevel : ComplexityLevel) :
    ExplanationStore :=
  let explanation : CachedExplanation :=
    ⟨normalize question, answer, complexityLevel, now⟩
  let entries :=
    if MAX_EXPLANATIONS ≤ store.entries.length then
      cleanOldExplanations 5 store.entries
    else
      store.entries
  ⟨store.nextId + 1, entries ++ [(store.nextId, explanation)]⟩

/-- `QueuedRequest` of offlineStorage.ts.  The body is an opaque payload.
`type` is one of the strings `explanation`, `analytics`, `rating`. -/
structure QueuedRequest : Type where
  id : String
  type : String
  url : String
  method : String
  body : Option String
  timestamp : Nat
  retries : Nat
deriving DecidableEq, Repr

/-- `OfflineStorage.queueRequest`: build the id
`type-timestamp-randomsuffix` (the random suffix is an oracle argument)
and add the record with `retries = 0`.  When the store already holds
`MAX_QUEUE_SIZE` records the source only warns and adds anyway, so the
queue is effectively uncapped. -/
def queueRequest (queue : List QueuedRequest) (type url method : String)
    (body : Option String) (now : Nat) (suffix : String) :
    List QueuedRequest :=
  queue ++ [{ id := type ++ "-" ++ Nat.repr now ++ "-" ++ suffix,
              type := type, url := url, method := method, body := body,
              timestamp := now, retries := 0 }]

/-- `getAll` on the queue store delivers records in ascending key order;
the key is the id string, compared by code unit. -/
def getQueuedRequests (queue : List QueuedRequest) : List QueuedRequest :=
  List.insertionSort (fun a b => a.id.data ≤ b.id.data) queue

/-- `OfflineStorage.removeFromQueue`: delete by key; a missing id is a
no-op. -/
def removeFromQueue (id : String) (queue : List QueuedRequest) :
    List QueuedRequest :=
  queue.filter (fun r => r.id ≠ id)

/-- `OfflineStorage.updateRetryCount`: get the record by key, bump
`retries`, put it back in place; a missing id resolves without change. -/
def updateRetryCount (id : String) (queue : List QueuedRequest) :
    List QueuedRequest :=
  queue.map (fun r =>
    if r.id = id then { r with retries := r.retries + 1 } else r)

/-- `OfflineAnalytic` of offlineStorage.ts (properties are opaque and
dropped). -/
structure OfflineAnalytic : Type where
  event : String
  timestamp : Nat
deriving DecidableEq, Repr

end OfflineStorage

namespace BackgroundSync

/-- `MAX_RETRIES` of backgroundSync.ts. -/
def MAX_RETRIES : Nat := 3

/-- `RETRY_DELAYS` of backgroundSync.ts (per-item backoff, no state
effect in the pure model). -/
def RETRY_DELAYS : List Nat := [1000, 5000, 15000]

/-- `SyncResult` of backgroundSync.ts; `errors` is the list of
`{id, error}` pairs in push order. -/
structure SyncResult : Type where
  success : Nat
  failed : Nat
  errors : List (String × String)
deriving DecidableEq, Repr

/-- `SyncStatus` of backgroundSync.ts.  The source's third tag is a
Lean keyword, so the mixed-outcome constructor is named `mixed` here. -/
inductive SyncStatus : Type
| idle : SyncStatus
| syncing (progress : Nat) : SyncStatus
| success (synced : Nat) : SyncStatus
| mixed (synced failed : Nat) : SyncStatus
| error (msg : String) : SyncStatus
deriving DecidableEq, Repr

/-- One iteration of the loop of `syncQueuedRequests` over the snapshot.
The network is the oracle `fetchRes`: `some status` is a served HTTP
response, `none` a thrown network error; `response.ok` is a status in
[200, 300).  The accumulator carries the running result, the queue store,
and the ids of delivery attempts in order. -/
def syncStep (fetchRes : OfflineStorage.QueuedRequest → Option Nat)
    (acc : SyncResult × List OfflineStorage.QueuedRequest × List String)
    (request : OfflineStorage.QueuedRequest) :
    SyncResult × List OfflineStorage.QueuedRequest × List String :=
  let result := acc.1
  let store := acc.2.1
  let attempted := acc.2.2
  if MAX_RETRIES ≤ request.retries then
    (⟨result.success, result.failed + 1,
        result.errors ++ [(request.id, "Max retries exceeded")]⟩,
     OfflineStorage.removeFromQueue request.id store, attempted)
  else
    match fetchRes request with
    | some status =>
      if 200 ≤ status ∧ status < 300 then
        (⟨result.success + 1, result.failed, result.errors⟩,
         OfflineStorage.removeFromQueue request.id store,
         attempted ++ [request.id])
      else
        (⟨result.success, result.failed + 1,
            result.errors ++ [(request.id, "HTTP " ++ Nat.repr status)]⟩,
         OfflineStorage.updateRetryCount request.id store,
         attempted ++ [request.id])
    | none =>
        (⟨result.success, result.failed + 1,
            result.errors ++ [(request.id, "NetworkError")]⟩,
         OfflineStorage.updateRetryCount request.id store,
         attempted ++ [request.id])

/-- True for a snapshot entry that `syncStep` counts into the failed
total: at the retry ceiling, or attempted with a non-2xx reply or a
network error. -/
def stepFails (fetchRes : OfflineStorage.QueuedRequest → Option Nat)
    (request : OfflineStorage.QueuedRequest) : Bool :=
  decide (MAX_RETRIES ≤ request.retries) ||
    match fetchRes request with
    | some status => decide (¬ (200 ≤ status ∧ status < 300))
    | none => true

/-- `BackgroundSync.syncQueuedRequests`: snapshot the queue via `getAll`
(key order) and process each snapshot entry in that order.  Entries at or
above the retry ceiling are removed without a delivery attempt; delivered
entries are removed; failed attempts bump the retry count in place. -/
def syncQueuedRequests (fetchRes : OfflineStorage.QueuedRequest → Option Nat)
    (queue : List OfflineStorage.QueuedRequest) :
    SyncResult × List OfflineStorage.QueuedRequest × List String :=
  (OfflineStorage.getQueuedRequests queue).foldl (syncStep fetchRes)
    (⟨0, 0, []⟩, queue, [])

/-- `BackgroundSync.syncOfflineAnalytics`: replay each stored analytic
through the analytics service (oracle `trackOk`; in the source
`analyticsService.track` swallows its own errors, so the failure branch
is dead code there), then clear the whole store if anything succeeded. -/
def syncOfflineAnalytics (trackOk : OfflineStorage.OfflineAnalytic → Bool)
    (analytics : List OfflineStorage.OfflineAnalytic) :
    SyncResult × List OfflineStorage.OfflineAnalytic :=
  let result := analytics.foldl
    (fun r a =>
      if trackOk a then ⟨r.success + 1, r.failed, r.errors⟩
      else ⟨r.success, r.failed + 1, r.errors⟩)
    ⟨0, 0, []⟩
  (result, if 0 < result.success then [] else analytics)

/-- The state read and written by a call to `syncNow`. -/
structure SyncState : Type where
  isSyncing : Bool
  isOffline : Bool
  queue : List OfflineStorage.QueuedRequest
  analytics : List OfflineStorage.OfflineAnalytic
deriving Repr

/-- Everything a call to `syncNow` produces: the returned `SyncResult`,
the final queue and analytics stores, the `SyncStatus` values published
to listeners in order, and the ids of delivery attempts in order. -/
structure SyncOutcome : Type where
  result : SyncResult
  queue : List OfflineStorage.QueuedRequest
  analytics : List OfflineStorage.OfflineAnalytic
  statuses : List SyncStatus
  attempted : List String
deriving Repr

/-- `BackgroundSync.syncNow`: return `{success: 0, failed: 0, errors: []}`
untouched and unannounced when a pass is already in flight or the
connectivity monitor reports offline; otherwise publish `syncing`,
process the queue, replay analytics, and publish `success` when
`result.success > 0`, the mixed status when `result.failed > 0`, and
`idle` when both are zero.  The two inner passes catch their own
exceptions and the model is total, so the `error` status of the source's
outer catch is never published here. -/
def syncNow (fetchRes : OfflineStorage.QueuedRequest → Option Nat)
    (trackOk : OfflineStorage.OfflineAnalytic → Bool)
    (st : SyncState) : SyncOutcome :=
  if st.isSyncing then ⟨⟨0, 0, []⟩, st.queue, st.analytics, [], []⟩
  else if st.isOffline then ⟨⟨0, 0, []⟩, st.queue, st.analytics, [], []⟩
  else
    let requestResult := syncQueuedRequests fetchRes st.queue
    let analyticsResult := syncOfflineAnalytics trackOk st.analytics
    let result : SyncResult :=
      ⟨requestResult.1.success + analyticsResult.1.success,
       requestResult.1.failed + analyticsResult.1.failed,
       requestResult.1.errors⟩
    let statuses :=
      [SyncStatus.syncing 0]
        ++ (if 0 < result.success then [SyncStatus.success result.success] else [])
        ++ (if 0 < result.failed then [SyncStatus.mixed result.success result.failed] else [])
        ++ (if result.success = 0 ∧ result.failed = 0 then [SyncStatus.idle] else [])
    ⟨result, requestResult.2.1, analyticsResult.2, statuses, requestResult.2.2⟩

end BackgroundSync

/-- `url.includes(pattern)` on character lists. -/
def strIncludes (s pattern : String) : Bool :=
  s.data.tails.any (fun t => pattern.data.isPrefixOf t)

namespace OfflineAwareAPI

/-- The distinguishable ways `OfflineAwareAPI.request` finishes: a parsed
response value, or one of the thrown errors
`QUEUED_OFFLINE`, `OFFLINE_NO_CACHE`, `UNAUTHORIZED`,
`QUEUED_NETWORK_ERROR`, `HTTP <status>: ...`, or a rethrown fetch
failure. -/
inductive RequestOutcome : Type
| ok (data : String) : RequestOutcome
| queuedOffline : RequestOutcome
| offlineNoCache : RequestOutcome
| unauthorized : RequestOutcome
| queuedNetworkError : RequestOutcome
| httpError (status : Nat) : RequestOutcome
| networkFailure : RequestOutcome
deriving DecidableEq, Repr

/-- A served HTTP response: status code and the JSON body (opaque). -/
structure HttpResponse : Type where
  status : Nat
  data : String
deriving DecidableEq, Repr

/-- The state `request` reads and writes: the auth token in
chrome.storage.sync, the generic response cache in chrome.storage.local
(url, cached-at, data), and the durable request queue. -/
structure APIState : Type where
  authToken : Option String
  responseCache : List (String × Nat × String)
  queue : List OfflineStorage.QueuedRequest
deriving DecidableEq, Repr

/-- `OfflineAwareAPI.getRequestType`. -/
def getRequestType (url : String) : String :=
  if strIncludes url "/chat" then "explanation"
  else if strIncludes url "/analytics" then "analytics"
  else if strIncludes url "/rate" then "rating"
  else "explanation"

/-- `OfflineAwareAPI.cacheResponse`: overwrite the key `api:url` with the
data and the current time. -/
def cacheResponse (now : Nat) (cache : List (String × Nat × String))
    (url data : String) : List (String × Nat × String) :=
  (url, now, data) :: cache.filter (fun e => e.1 ≠ url)

/-- `OfflineAwareAPI.getCachedResponse`: the stored data when present and
younger than one hour, else nothing. -/
def getCachedResponse (now : Nat) (cache : List (String × Nat × String))
    (url : String) : Option String :=
  match cache.find? (fun e => e.1 = url) with
  | some e => if now - e.2.1 < 3600000 then some e.2.2 else none
  | none => none

/-- `OfflineAwareAPI.queueRequest`: enqueue under the kind derived from
the url; an absent method is stored as POST. -/
def queueViaGateway (now : Nat) (suffix : String)
    (queue : List OfflineStorage.QueuedRequest) (url : String)
    (method : Option String) (body : Option String) :
    List OfflineStorage.QueuedRequest :=
  OfflineStorage.queueRequest queue (getRequestType url) url
    (method.getD "POST") body now suffix

/-- True exactly when the source treats the request as a read:
`fetchOptions.method === 'GET' || !fetchOptions.method`. -/
def isGetOrAbsent (method : Option String) : Bool :=
  method = some "GET" ∨ method = none

/-- The catch block of `OfflineAwareAPI.request`: a queueable non-GET is
enqueued and surfaces as the queued outcome; a read falls back to a fresh
cached response before rethrowing; anything else rethrows. -/
def requestCatch (now : Nat) (st : APIState) (url : String)
    (method : Option String) (queueIfOffline : Bool)
    (body : Option String) (suffix : String) (e : RequestOutcome) :
    RequestOutcome × APIState :=
  if queueIfOffline ∧ method ≠ some "GET" then
    (.queuedNetworkError,
     { st with queue := queueViaGateway now suffix st.queue url method body })
  else if isGetOrAbsent method then
    match getCachedResponse now st.responseCache url with
    | some data => (.ok data, st)
    | none => (e, st)
  else (e, st)

/-- `OfflineAwareAPI.request`.  The network is the oracle `fetchRes`
(`none` = fetch threw).  Returns the outcome, the final state, and
whether fetch was called.  The source's `requiresAuth` flag only attaches
an Authorization header read from the stored token and changes no control
flow, so it is not a parameter here.  Offline: a queueable non-GET is enqueued and
fails as queued; a read is served from the fresh response cache or fails
as offline-no-cache.  Online: a 401 removes the auth token and throws
UNAUTHORIZED into the catch block; an ok response is returned (reads are
write-through cached); a non-ok response or a fetch failure throws into
the catch block. -/
def request (now : Nat) (st : APIState) (isOffline : Bool)
    (fetchRes : Option HttpResponse) (url : String) (method : Option String)
    (queueIfOffline : Bool) (body : Option String) (suffix : String) :
    RequestOutcome × APIState × Bool :=
  if isOffline then
    if queueIfOffline ∧ method ≠ some "GET" then
      (.queuedOffline,
       { st with queue := queueViaGateway now suffix st.queue url method body },
       false)
    else if isGetOrAbsent method then
      match getCachedResponse now st.responseCache url with
      | some data => (.ok data, st, false)
      | none => (.offlineNoCache, st, false)
    else (.offlineNoCache, st, false)
  else
    match fetchRes with
    | none =>
      let (outcome, st1) :=
        requestCatch now st url method queueIfOffline body suffix .networkFailure
      (outcome, st1, true)
    | some response =>
      if response.status = 401 then
        let st1 : APIState := { st with authToken := none }
        let (outcome, st2) :=
          requestCatch now st1 url method queueIfOffline body suffix .unauthorized
        (outcome, st2, true)
      else
        let ok := 200 ≤ response.status ∧ response.status < 300
        let st1 :=
          if isGetOrAbsent method ∧ ok then
            { st with responseCache :=
                cacheResponse now st.responseCache url response.data }
          else st
        if ok then (.ok response.data, st1, true)
        else
          let (outcome, st2) :=
            requestCatch now st1 url method queueIfOffline body suffix
              (.httpError response.status)
          (outcome, st2, true)

/-- The distinguishable ways `OfflineAwareAPI.getExplanation` finishes. -/
inductive ExplanationOutcome : Type
| answer (text : String) (fromCache : Bool) : ExplanationOutcome
| offlineNoCache : ExplanationOutcome
| failed (e : RequestOutcome) : ExplanationOutcome
deriving DecidableEq, Repr

/-- `OfflineAwareAPI.getExplanation`: check the explanation cache first —
a hit returns `{answer, fromCache: true}` without consulting the
connectivity monitor or the network; a miss while offline throws
OFFLINE_NO_CACHE; online, POST `/api/chat` with `queueIfOffline: false`,
write a fresh answer through to the explanation cache, and on a request
error retry the (unchanged) cache once before rethrowing.  Returns the
outcome, the explanation store, the gateway state, and whether the
network was used. -/
def getExplanation (now : Nat) (st : APIState)
    (store : OfflineStorage.ExplanationStore) (isOffline : Bool)
    (fetchRes : Option HttpResponse) (question : String)
    (complexityLevel : ComplexityLevel) :
    ExplanationOutcome × OfflineStorage.ExplanationStore × APIState × Bool :=
  match OfflineStorage.getCachedExplanation now store question complexityLevel with
  | some cached => (.answer cached.answer true, store, st, false)
  | none =>
    if isOffline then (.offlineNoCache, store, st, false)
    else
      match request now st false fetchRes "/api/chat" (some "POST") false
          (some "chatBody") "sfx" with
      | (.ok data, st1, called) =>
        (.answer data false,
         OfflineStorage.cacheExplanation now store question data complexityLevel,
         st1, called)
      | (e, st1, called) =>
        match OfflineStorage.getCachedExplanation now store question complexityLevel with
        | some fallback => (.answer fallback.answer true, store, st1, called)
        | none => (.failed e, store, st1, called)

end OfflineAwareAPI

end Stupify


/-! ## Helper lemmas -/

namespace Stupify

namespace OfflineStorage

/-- Every score produced by `calculateSimilarity` has a positive
denominator. -/
theorem calculateSimilarity_den_pos (q1 q2 : String) :
    0 < (calculateSimilarity q1 q2).2 := by
  unfold calculateSimilarity
  split
  · exact Nat.one_pos
  · simp only []
    split
    · exact Nat.one_pos
    · rename_i h2
      push_neg at h2
      exact lt_of_lt_of_le (Nat.pos_of_ne_zero h2.1) (le_max_left _ _)

/-- Transitivity of the fraction order for positive middle denominator:
from a ≤ b and b ≤ c conclude a ≤ c (cross-multiplied). -/
theorem fracLe_trans {a b c : Nat × Nat} (hb : 0 < b.2)
    (h1 : a.1 * b.2 ≤ b.1 * a.2) (h2 : b.1 * c.2 ≤ c.1 * b.2) :
    a.1 * c.2 ≤ c.1 * a.2 := by
  have h1' : a.1 * b.2 * c.2 ≤ b.1 * a.2 * c.2 := Nat.mul_le_mul_right _ h1
  have h2' : b.1 * c.2 * a.2 ≤ c.1 * b.2 * a.2 := Nat.mul_le_mul_right _ h2
  have hchain : a.1 * c.2 * b.2 ≤ c.1 * a.2 * b.2 := by
    calc a.1 * c.2 * b.2 = a.1 * b.2 * c.2 := by ring
    _ ≤ b.1 * a.2 * c.2 := h1'
    _ = b.1 * c.2 * a.2 := by ring
    _ ≤ c.1 * b.2 * a.2 := h2'
    _ = c.1 * a.2 * b.2 := by ring
  exact Nat.le_of_mul_le_mul_right hchain hb

/-- From a ≤ b (cross-multiplied) and b < c conclude a < c, for positive
denominator of a. -/
theorem fracLe_lt_trans {a b c : Nat × Nat} (ha : 0 < a.2)
    (h1 : a.1 * b.2 ≤ b.1 * a.2) (h2 : b.1 * c.2 < c.1 * b.2) :
    a.1 * c.2 < c.1 * a.2 := by
  have h1' : a.1 * b.2 * c.2 ≤ b.1 * a.2 * c.2 := Nat.mul_le_mul_right _ h1
  have h2' : b.1 * c.2 * a.2 < c.1 * b.2 * a.2 :=
    Nat.mul_lt_mul_of_lt_of_le h2 (Nat.le_refl _) ha
  have hchain : a.1 * c.2 * b.2 < c.1 * a.2 * b.2 := by
    calc a.1 * c.2 * b.2 = a.1 * b.2 * c.2 := by ring
    _ ≤ b.1 * a.2 * c.2 := h1'
    _ = b.1 * c.2 * a.2 := by ring
    _ < c.1 * b.2 * a.2 := h2'
    _ = c.1 * a.2 * b.2 := by ring
  exact Nat.lt_of_mul_lt_mul_right hchain

end OfflineStorage

end Stupify

/-! ## C3: sync is a no-op while offline or while a pass is in flight -/

namespace Stupify

/-- C3: whenever the connectivity monitor reports offline or a sync pass
is already running, `syncNow` returns `{success: 0, failed: 0}` with an
empty error list, leaves the request queue and the analytics store
unchanged, publishes no status, and performs no delivery attempt — so a
concurrent `syncNow` during a pass never attempts any queued item. -/
theorem C3_sync_noop_offline_or_inflight
    (fetchRes : OfflineStorage.QueuedRequest → Option Nat)
    (trackOk : OfflineStorage.OfflineAnalytic → Bool)
    (st : BackgroundSync.SyncState)
    (h : st.isSyncing = true ∨ st.isOffline = true) :
    BackgroundSync.syncNow fetchRes trackOk st =
      ⟨⟨0, 0, []⟩, st.queue, st.analytics, [], []⟩ := by
  unfold BackgroundSync.syncNow
  rcases h with h | h
  · simp [h]
  · cases hs : st.isSyncing <;> simp [h, hs]

/-- Witness for C3 at a concrete in-flight state with a non-empty queue. -/
theorem C3_sync_noop_offline_or_inflight_witness :
    BackgroundSync.syncNow (fun _ => some 200) (fun _ => true)
      ⟨true, false, [⟨"a", "rating", "/r", "POST", none, 1, 0⟩], []⟩ =
      ⟨⟨0, 0, []⟩, [⟨"a", "rating", "/r", "POST", none, 1, 0⟩], [], [], []⟩ :=
  C3_sync_noop_offline_or_inflight _ _ _ (Or.inl rfl)

end Stupify

/-! ## C7: tier isolation and expiry -/

namespace Stupify

namespace OfflineStorage

/-- A score that equals 1.0 is above the 0.7 threshold (denominator
positive). -/
theorem scoreEqOne_above {s : Nat × Nat} (hpos : 0 < s.2)
    (h : scoreEqOne s = true) : scoreAboveThreshold s = true := by
  unfold scoreEqOne at h
  unfold scoreAboveThreshold
  simp only [decide_eq_true_eq] at h ⊢
  omega

/-- Any record delivered by the cursor loop is live and of the requested
tier, provided the incoming accumulator already is. -/
theorem getLoop_sound (now : Nat) (nq : String) (lvl : ComplexityLevel)
    (l : List (Nat × CachedExplanation)) :
    ∀ (best : Option CachedExplanation) (bestScore : Nat × Nat),
      (∀ b, best = some b → b.complexity_level = lvl ∧
          ¬ CACHE_EXPIRY < now - b.cached_at) →
      ∀ e, getLoop now nq lvl best bestScore l = some e →
        e.complexity_level = lvl ∧ ¬ CACHE_EXPIRY < now - e.cached_at := by
  induction l with
  | nil => intro best bestScore hbest e h; exact hbest e h
  | cons x rest ih =>
    intro best bestScore hbest e h
    simp only [getLoop] at h
    by_cases hexp : CACHE_EXPIRY < now - x.2.cached_at
    · rw [if_pos hexp] at h
      exact ih best bestScore hbest e h
    · rw [if_neg hexp] at h
      by_cases hlvl : x.2.complexity_level = lvl
      · rw [if_pos hlvl] at h
        by_cases h1 : scoreEqOne (calculateSimilarity nq x.2.question) = true
        · rw [if_pos h1] at h
          cases h
          exact ⟨hlvl, hexp⟩
        · rw [if_neg h1] at h
          by_cases h2 : scoreGt (calculateSimilarity nq x.2.question) bestScore = true ∧
              scoreAboveThreshold (calculateSimilarity nq x.2.question) = true
          · rw [if_pos h2] at h
            refine ih _ _ ?_ e h
            intro b hb
            cases hb
            exact ⟨hlvl, hexp⟩
          · rw [if_neg h2] at h
            exact ih best bestScore hbest e h
      · rw [if_neg hlvl] at h
        exact ih best bestScore hbest e h

/-- The cursor loop never changes its accumulator when every record is
expired, of another tier, or scores at most 0.7. -/
theorem getLoop_stay (now : Nat) (nq : String) (lvl : ComplexityLevel)
    (l : List (Nat × CachedExplanation))
    (h : ∀ p ∈ l, CACHE_EXPIRY < now - p.2.cached_at ∨
        p.2.complexity_level ≠ lvl ∨
        scoreAboveThreshold (calculateSimilarity nq p.2.question) = false) :
    ∀ (best : Option CachedExplanation) (bestScore : Nat × Nat),
      getLoop now nq lvl best bestScore l = best := by
  induction l with
  | nil => intro best bestScore; rfl
  | cons x rest ih =>
    intro best bestScore
    have hx := h x (List.mem_cons_self x rest)
    have hrest : ∀ p ∈ rest, CACHE_EXPIRY < now - p.2.cached_at ∨
        p.2.complexity_level ≠ lvl ∨
        scoreAboveThreshold (calculateSimilarity nq p.2.question) = false :=
      fun p hp => h p (List.mem_cons_of_mem x hp)
    simp only [getLoop]
    by_cases hexp : CACHE_EXPIRY < now - x.2.cached_at
    · rw [if_pos hexp]; exact ih hrest best bestScore
    · rw [if_neg hexp]
      by_cases hlvl : x.2.complexity_level = lvl
      · rw [if_pos hlvl]
        have hthr : scoreAboveThreshold (calculateSimilarity nq x.2.question) = false := by
          rcases hx with hx | hx | hx
          · exact absurd hx hexp
          · exact absurd hlvl hx
          · exact hx
        have h1 : ¬ scoreEqOne (calculateSimilarity nq x.2.question) = true := by
          intro h1
          have := scoreEqOne_above (calculateSimilarity_den_pos nq x.2.question) h1
          rw [hthr] at this
          cases this
        rw [if_neg h1]
        have h2 : ¬ (scoreGt (calculateSimilarity nq x.2.question) bestScore = true ∧
            scoreAboveThreshold (calculateSimilarity nq x.2.question) = true) := by
          intro h2
          rw [hthr] at h2
          cases h2.2
        rw [if_neg h2]
        exact ih hrest best bestScore
      · rw [if_neg hlvl]
        exact ih hrest best bestScore

end OfflineStorage

/-- C7: neither cache variant ever leaks across tiers or serves an
expired entry.  In both the in-memory `CacheService.get` and the durable
`OfflineStorage.getCachedExplanation`: any returned entry is of the
requested tier and not expired (so expired entries act as absent without
any `clear()`), and when only other-tier entries exist the lookup
returns null. -/
theorem C7_tier_isolation_and_expiry
    (now : Nat) (cache : List CachedExplanation)
    (store : OfflineStorage.ExplanationStore)
    (q : String) (lvl : ComplexityLevel) :
    (∀ e, CacheService.get now cache q lvl = some e →
        e.complexity_level = lvl ∧ CacheService.isExpired now e = false) ∧
    ((∀ e ∈ cache, e.complexity_level ≠ lvl) →
        CacheService.get now cache q lvl = none) ∧
    (∀ e, OfflineStorage.getCachedExplanation now store q lvl = some e →
        e.complexity_level = lvl ∧ ¬ OfflineStorage.CACHE_EXPIRY < now - e.cached_at) ∧
    ((∀ p ∈ store.entries, p.2.complexity_level ≠ lvl) →
        OfflineStorage.getCachedExplanation now store q lvl = none) := by
  have hsim : ∀ e, CacheService.similarMatch now cache (normalize q) lvl = some e →
      e.complexity_level = lvl ∧ CacheService.isExpired now e = false := by
    intro e h
    unfold CacheService.similarMatch at h
    have := List.find?_some h
    simp only [decide_eq_true_eq] at this
    exact ⟨this.1, this.2.1⟩
  refine ⟨?_, ?_, ?_, ?_⟩
  · intro e h
    simp only [CacheService.get] at h
    split at h
    · rename_i exact0 hfind
      split at h
      · rename_i hexp
        cases h
        have := List.find?_some hfind
        simp only [decide_eq_true_eq] at this
        exact ⟨this.2, hexp⟩
      · exact hsim e h
    · exact hsim e h
  · intro hall
    simp only [CacheService.get]
    have hfind : cache.find? (fun item =>
        item.question = normalize q ∧ item.complexity_level = lvl) = none := by
      rw [List.find?_eq_none]
      intro x hx
      simp only [decide_eq_true_eq]
      rintro ⟨-, h2⟩
      exact hall x hx h2
    rw [hfind]
    unfold CacheService.similarMatch
    rw [List.find?_eq_none]
    intro x hx
    simp only [decide_eq_true_eq]
    rintro ⟨h1, -⟩
    exact hall x hx h1
  · intro e h
    exact OfflineStorage.getLoop_sound now (normalize q) lvl _ none (0, 1)
      (by intro b hb; cases hb) e h
  · intro hall
    unfold OfflineStorage.getCachedExplanation
    refine OfflineStorage.getLoop_stay now (normalize q) lvl _ ?_ none (0, 1)
    intro p hp
    have hmem : p ∈ store.entries :=
      (List.Perm.mem_iff (List.perm_insertionSort _ _)).mp hp
    exact Or.inr (Or.inl (hall p hmem))

/-- Witness for C7: a one-entry tier-1 cache serves nothing at tier 2,
in both variants, and an expired exact entry is treated as absent. -/
theorem C7_tier_isolation_and_expiry_witness :
    CacheService.get 0 [⟨"what is gravity", "A", .fiveYO, 0⟩] "what is gravity" .normal = none ∧
    OfflineStorage.getCachedExplanation 0 ⟨2, [(1, ⟨"what is gravity", "A", .fiveYO, 0⟩)]⟩
      "what is gravity" .normal = none := by
  constructor
  · exact (C7_tier_isolation_and_expiry 0 [⟨"what is gravity", "A", .fiveYO, 0⟩]
      ⟨1, []⟩ "what is gravity" .normal).2.1 (by decide)
  · exact (C7_tier_isolation_and_expiry 0 []
      ⟨2, [(1, ⟨"what is gravity", "A", .fiveYO, 0⟩)]⟩ "what is gravity" .normal).2.2.2 (by decide)

end Stupify

/-! ## C1: cache hit after write-through -/

namespace Stupify

namespace OfflineStorage

/-- When exactly one record of the cursor list is live, same-tier and
scores 1.0, the cursor loop returns it (for any accumulator). -/
theorem getLoop_unique_exact (now : Nat) (nq : String) (lvl : ComplexityLevel)
    (x : CachedExplanation)
    (hxlive : ¬ CACHE_EXPIRY < now - x.cached_at)
    (hxlvl : x.complexity_level = lvl)
    (hxscore : scoreEqOne (calculateSimilarity nq x.question) = true) :
    ∀ (l : List (Nat × CachedExplanation)) (best : Option CachedExplanation)
      (bestScore : Nat × Nat),
      (∀ p ∈ l, p.2 = x ∨ CACHE_EXPIRY < now - p.2.cached_at ∨
          p.2.complexity_level ≠ lvl ∨
          scoreEqOne (calculateSimilarity nq p.2.question) = false) →
      (∃ p ∈ l, p.2 = x) →
      getLoop now nq lvl best bestScore l = some x := by
  intro l
  induction l with
  | nil =>
    intro best bestScore _ hex
    rcases hex with ⟨p, hp, _⟩
    cases hp
  | cons y rest ih =>
    intro best bestScore hall hex
    simp only [getLoop]
    by_cases hy : y.2 = x
    · rw [if_neg (by rw [hy]; exact hxlive)]
      rw [if_pos (by rw [hy]; exact hxlvl)]
      rw [if_pos (by rw [hy]; exact hxscore)]
      rw [hy]
    · have hrest : ∀ p ∈ rest, p.2 = x ∨ CACHE_EXPIRY < now - p.2.cached_at ∨
          p.2.complexity_level ≠ lvl ∨
          scoreEqOne (calculateSimilarity nq p.2.question) = false :=
        fun p hp => hall p (List.mem_cons_of_mem y hp)
      have hexr : ∃ p ∈ rest, p.2 = x := by
        rcases hex with ⟨p, hp, hpx⟩
        rcases List.mem_cons.mp hp with h | h
        · rw [h] at hpx; exact absurd hpx hy
        · exact ⟨p, h, hpx⟩
      have hdis := hall y (List.mem_cons_self y rest)
      by_cases hexp : CACHE_EXPIRY < now - y.2.cached_at
      · rw [if_pos hexp]; exact ih _ _ hrest hexr
      · rw [if_neg hexp]
        by_cases hlvl : y.2.complexity_level = lvl
        · rw [if_pos hlvl]
          have hs1 : scoreEqOne (calculateSimilarity nq y.2.question) = false := by
            rcases hdis with h | h | h | h
            · exact absurd h hy
            · exact absurd h hexp
            · exact absurd hlvl h
            · exact h
          rw [if_neg (by simp [hs1])]
          by_cases h2 : scoreGt (calculateSimilarity nq y.2.question) bestScore = true ∧
              scoreAboveThreshold (calculateSimilarity nq y.2.question) = true
          · rw [if_pos h2]; exact ih _ _ hrest hexr
          · rw [if_neg h2]; exact ih _ _ hrest hexr
        · rw [if_neg hlvl]; exact ih _ _ hrest hexr

end OfflineStorage

/-- C1 counterexample: the durable store never removes the prior entry
for the same (question, tier), so after the cache stores a fresh answer
NEW for a pair that already held OLD, `getExplanation` serves OLD — not
the just-stored answer — even though it reports `fromCache: true`.  The
claim as stated (returns the stored answer for every state) is false. -/
theorem C1_counterexample :
    (OfflineAwareAPI.getExplanation 9 ⟨none, [], []⟩
        (OfflineStorage.cacheExplanation 7
          (OfflineStorage.cacheExplanation 5 OfflineStorage.emptyExplanations
            "aaaa bbbb" "OLD" .normal)
          "aaaa bbbb" "NEW" .normal)
        false (some ⟨200, "NET"⟩) "aaaa bbbb" .normal).1 =
      .answer "OLD" true ∧ "OLD" ≠ "NEW" := by
  constructor
  · decide
  · decide

/-- C1 (amended): a lookup hit always short-circuits the network — for
any connectivity and any network behaviour, when the explanation cache
holds an answer the gateway returns it with `fromCache: true`, touches no
state and makes no network call.  After `cacheExplanation` stores answer
`a` for a non-empty question and tier, this hit returns `a` itself
provided no other live same-tier record already scored 1.0 against the
normalized question (in particular, provided no prior live entry for the
same pair existed — otherwise the earliest such record is served
instead, as the counterexample shows). -/
theorem C1_cache_hit_after_put_amended
    (now : Nat) (st : OfflineAwareAPI.APIState)
    (store : OfflineStorage.ExplanationStore) (isOffline : Bool)
    (fetchRes : Option OfflineAwareAPI.HttpResponse)
    (q a : String) (lvl : ComplexityLevel)
    (hq : normalize q ≠ "")
    (hprior : ∀ p ∈ store.entries, p.2.complexity_level = lvl →
        ¬ OfflineStorage.CACHE_EXPIRY < now - p.2.cached_at →
        OfflineStorage.scoreEqOne
          (OfflineStorage.calculateSimilarity (normalize q) p.2.question) = false) :
    OfflineAwareAPI.getExplanation now st
      (OfflineStorage.cacheExplanation now store q a lvl) isOffline fetchRes q lvl =
      (.answer a true, OfflineStorage.cacheExplanation now store q a lvl, st, false) := by
  have hnew : OfflineStorage.getCachedExplanation now
      (OfflineStorage.cacheExplanation now store q a lvl) q lvl =
      some ⟨normalize q, a, lvl, now⟩ := by
    unfold OfflineStorage.getCachedExplanation
    refine OfflineStorage.getLoop_unique_exact now (normalize q) lvl
      ⟨normalize q, a, lvl, now⟩
      (by show ¬ OfflineStorage.CACHE_EXPIRY < now - now; omega) rfl
      (by simp [OfflineStorage.calculateSimilarity, OfflineStorage.scoreEqOne])
      _ none (0, 1) ?_ ?_
    · intro p hp
      have hp' : p ∈ (OfflineStorage.cacheExplanation now store q a lvl).entries :=
        (List.Perm.mem_iff (List.perm_insertionSort _ _)).mp hp
      unfold OfflineStorage.cacheExplanation at hp'
      rcases List.mem_append.mp hp' with hp2 | hp2
      · have hmem : p ∈ store.entries := by
          by_cases hcap : OfflineStorage.MAX_EXPLANATIONS ≤ store.entries.length
          · rw [if_pos hcap] at hp2
            exact List.mem_of_mem_filter hp2
          · rw [if_neg hcap] at hp2
            exact hp2
        by_cases hlvl : p.2.complexity_level = lvl
        · by_cases hexp : OfflineStorage.CACHE_EXPIRY < now - p.2.cached_at
          · exact Or.inr (Or.inl hexp)
          · exact Or.inr (Or.inr (Or.inr (hprior p hmem hlvl hexp)))
        · exact Or.inr (Or.inr (Or.inl hlvl))
      · rcases List.mem_singleton.mp hp2 with h
        rw [h]
        exact Or.inl rfl
    · refine ⟨(store.nextId, ⟨normalize q, a, lvl, now⟩), ?_, rfl⟩
      refine (List.Perm.mem_iff (List.perm_insertionSort _ _)).mpr ?_
      unfold OfflineStorage.cacheExplanation
      exact List.mem_append.mpr (Or.inr (List.mem_singleton.mpr rfl))
  simp only [OfflineAwareAPI.getExplanation, hnew]

/-- Witness for C1 (amended) on an empty cache: the freshly stored answer
is served from cache with no network call, even though the network would
serve a different answer. -/
theorem C1_cache_hit_after_put_amended_witness :
    OfflineAwareAPI.getExplanation 5 ⟨none, [], []⟩
      (OfflineStorage.cacheExplanation 5 OfflineStorage.emptyExplanations
        "What is DNS?" "DNS is a naming system" .normal)
      false (some ⟨200, "a different network answer"⟩) "What is DNS?" .normal =
      (.answer "DNS is a naming system" true,
       OfflineStorage.cacheExplanation 5 OfflineStorage.emptyExplanations
         "What is DNS?" "DNS is a naming system" .normal,
       ⟨none, [], []⟩, false) :=
  C1_cache_hit_after_put_amended 5 ⟨none, [], []⟩ OfflineStorage.emptyExplanations
    false (some ⟨200, "a different network answer"⟩) "What is DNS?"
    "DNS is a naming system" .normal (by decide) (by intro p hp; cases hp)

end Stupify

/-! ## C2: at most one live entry per (question, tier) pair -/

namespace Stupify

/-- C2 counterexample: the durable `cacheExplanation` never removes the
prior record for the same exact (question, tier) pair — after two stores
for the same pair the store holds two live records for it, so the
invariant is not kept by every cache operation. -/
theorem C2_counterexample :
    ((OfflineStorage.cacheExplanation 7
        (OfflineStorage.cacheExplanation 5 OfflineStorage.emptyExplanations
          "aaaa bbbb" "OLD" .normal)
        "aaaa bbbb" "NEW" .normal).entries.filter (fun p =>
          p.2.question = "aaaa bbbb" ∧ p.2.complexity_level = .normal ∧
          ¬ OfflineStorage.CACHE_EXPIRY < 7 - p.2.cached_at)).length = 2 := by
  decide

/-- C2 (amended): the in-memory `CacheService.add` does keep the
invariant: after `add`, the entries for the stored (normalized question,
tier) pair are exactly the one new entry — the prior entry is replaced,
never duplicated — and pairwise key-uniqueness of the whole cache is
preserved.  (The durable `cacheExplanation` does not keep it, see the
counterexample.) -/
theorem C2_pair_uniqueness_amended
    (now : Nat) (q a : String) (lvl : ComplexityLevel)
    (cache : List CachedExplanation) :
    ((CacheService.add now q a lvl cache).filter (fun e =>
        e.question = normalize q ∧ e.complexity_level = lvl)) =
      [⟨normalize q, a, lvl, now⟩] ∧
    (pairwiseDistinctKeys cache →
      pairwiseDistinctKeys (CacheService.add now q a lvl cache)) := by
  have hadd : CacheService.add now q a lvl cache =
      (⟨normalize q, a, lvl, now⟩ ::
        cache.filter (fun item =>
          ¬ (item.question = normalize q ∧ item.complexity_level = lvl))).take
        CacheService.MAX_CACHE_SIZE := rfl
  constructor
  · rw [hadd]
    show ((⟨normalize q, a, lvl, now⟩ ::
        (cache.filter _).take 9).filter _) = _
    rw [List.filter_cons]
    simp only [decide_eq_true_eq]
    rw [if_pos ⟨trivial, trivial⟩]
    have hnil : (((cache.filter (fun item =>
        ¬ (item.question = normalize q ∧ item.complexity_level = lvl))).take 9).filter
          (fun e => e.question = normalize q ∧ e.complexity_level = lvl)) = [] := by
      rw [List.filter_eq_nil]
      intro x hx
      have hx' := List.take_subset _ _ hx
      have := List.of_mem_filter hx'
      simp only [decide_eq_true_eq] at this ⊢
      exact this
    rw [hnil]
  · intro hpw
    rw [hadd]
    refine List.Pairwise.sublist (List.take_sublist _ _) ?_
    constructor
    · intro x hx
      have := List.of_mem_filter hx
      simp only [decide_eq_true_eq] at this
      intro hcon
      exact this ⟨hcon.1.symm, hcon.2.symm⟩
    · exact List.Pairwise.filter _ hpw

/-- Witness for C2 (amended): storing twice for the same pair in the
in-memory cache leaves exactly one entry for the pair. -/
theorem C2_pair_uniqueness_amended_witness :
    ((CacheService.add 7 "aaaa bbbb" "NEW" .normal
        [⟨"aaaa bbbb", "OLD", .normal, 5⟩]).filter (fun e =>
          e.question = normalize "aaaa bbbb" ∧ e.complexity_level = .normal)) =
      [⟨"aaaa bbbb", "NEW", .normal, 7⟩] ∧
    pairwiseDistinctKeys (CacheService.add 7 "aaaa bbbb" "NEW" .normal
      [⟨"aaaa bbbb", "OLD", .normal, 5⟩]) := by
  constructor
  · have h := (C2_pair_uniqueness_amended 7 "aaaa bbbb" "NEW" .normal
      [⟨"aaaa bbbb", "OLD", .normal, 5⟩]).1
    rw [h]
    decide
  · exact (C2_pair_uniqueness_amended 7 "aaaa bbbb" "NEW" .normal
      [⟨"aaaa bbbb", "OLD", .normal, 5⟩]).2 (List.pairwise_singleton _ _)

end Stupify

/-! ## C4 and C8: the sync pass over the queue snapshot -/

namespace Stupify

namespace BackgroundSync

/-- The ids attempted by the pass are exactly the below-ceiling snapshot
entries, in snapshot order. -/
theorem foldl_syncStep_attempted
    (fetchRes : OfflineStorage.QueuedRequest → Option Nat)
    (l : List OfflineStorage.QueuedRequest) :
    ∀ acc : SyncResult × List OfflineStorage.QueuedRequest × List String,
      (l.foldl (syncStep fetchRes) acc).2.2 =
        acc.2.2 ++ (l.filter (fun r => r.retries < MAX_RETRIES)).map (fun r => r.id) := by
  induction l with
  | nil => intro acc; simp
  | cons x xs ih =>
    intro acc
    rw [List.foldl_cons, ih, List.filter_cons]
    by_cases hc : MAX_RETRIES ≤ x.retries
    · rw [if_neg (by simp only [decide_eq_true_eq]; omega)]
      have hstep : (syncStep fetchRes acc x).2.2 = acc.2.2 := by
        simp only [syncStep, if_pos hc]
      rw [hstep]
    · rw [if_pos (by simp only [decide_eq_true_eq]; omega)]
      have hstep : (syncStep fetchRes acc x).2.2 = acc.2.2 ++ [x.id] := by
        simp only [syncStep, if_neg hc]
        rcases hfr : fetchRes x with _ | s
        · simp
        · by_cases hok : 200 ≤ s ∧ s < 300
          · simp [hok]
          · simp [hok]
      rw [hstep, List.map_cons]
      simp

/-- The failed total of the pass counts exactly the snapshot entries at
the ceiling or with a failed delivery. -/
theorem foldl_syncStep_failed
    (fetchRes : OfflineStorage.QueuedRequest → Option Nat)
    (l : List OfflineStorage.QueuedRequest) :
    ∀ acc : SyncResult × List OfflineStorage.QueuedRequest × List String,
      (l.foldl (syncStep fetchRes) acc).1.failed =
        acc.1.failed + (l.filter (stepFails fetchRes)).length := by
  induction l with
  | nil => intro acc; simp
  | cons x xs ih =>
    intro acc
    rw [List.foldl_cons, ih, List.filter_cons]
    by_cases hc : MAX_RETRIES ≤ x.retries
    · have hsf : stepFails fetchRes x = true := by
        simp only [stepFails, Bool.or_eq_true, decide_eq_true_eq]
        exact Or.inl hc
      rw [if_pos hsf]
      have hstep : (syncStep fetchRes acc x).1.failed = acc.1.failed + 1 := by
        simp only [syncStep, if_pos hc]
      rw [hstep, List.length_cons]
      omega
    · rcases hfr : fetchRes x with _ | s
      · have hsf : stepFails fetchRes x = true := by
          simp only [stepFails, hfr, Bool.or_eq_true]
          exact Or.inr trivial
        rw [if_pos hsf]
        have hstep : (syncStep fetchRes acc x).1.failed = acc.1.failed + 1 := by
          simp only [syncStep, if_neg hc, hfr]
        rw [hstep, List.length_cons]
        omega
      · by_cases hok : 200 ≤ s ∧ s < 300
        · have hsf : stepFails fetchRes x = false := by
            simp only [stepFails, hfr, Bool.or_eq_false_iff, decide_eq_false_iff_not]
            exact ⟨by omega, by simpa using hok⟩
          rw [if_neg (by simp [hsf])]
          have hstep : (syncStep fetchRes acc x).1.failed = acc.1.failed := by
            simp only [syncStep, if_neg hc, hfr, if_pos hok]
          rw [hstep]
        · have hsf : stepFails fetchRes x = true := by
            simp only [stepFails, hfr, Bool.or_eq_true, decide_eq_true_eq]
            exact Or.inr (by simpa using hok)
          rw [if_pos hsf]
          have hstep : (syncStep fetchRes acc x).1.failed = acc.1.failed + 1 := by
            simp only [syncStep, if_neg hc, hfr, if_neg hok]
          rw [hstep, List.length_cons]
          omega

/-- Errors already recorded stay recorded for the rest of the pass. -/
theorem foldl_syncStep_errors_mono
    (fetchRes : OfflineStorage.QueuedRequest → Option Nat)
    (l : List OfflineStorage.QueuedRequest) :
    ∀ (acc : SyncResult × List OfflineStorage.QueuedRequest × List String)
      (e : String × String), e ∈ acc.1.errors →
      e ∈ (l.foldl (syncStep fetchRes) acc).1.errors := by
  induction l with
  | nil => intro acc e he; exact he
  | cons x xs ih =>
    intro acc e he
    rw [List.foldl_cons]
    refine ih _ e ?_
    by_cases hc : MAX_RETRIES ≤ x.retries
    · have hstep : (syncStep fetchRes acc x).1.errors =
          acc.1.errors ++ [(x.id, "Max retries exceeded")] := by
        simp only [syncStep, if_pos hc]
      rw [hstep]
      exact List.mem_append_left _ he
    · rcases hfr : fetchRes x with _ | s
      · have hstep : (syncStep fetchRes acc x).1.errors =
            acc.1.errors ++ [(x.id, "NetworkError")] := by
          simp only [syncStep, if_neg hc, hfr]
        rw [hstep]
        exact List.mem_append_left _ he
      · by_cases hok : 200 ≤ s ∧ s < 300
        · have hstep : (syncStep fetchRes acc x).1.errors = acc.1.errors := by
            simp only [syncStep, if_neg hc, hfr, if_pos hok]
          rw [hstep]
          exact he
        · have hstep : (syncStep fetchRes acc x).1.errors =
              acc.1.errors ++ [(x.id, "HTTP " ++ s.repr)] := by
            simp only [syncStep, if_neg hc, hfr, if_neg hok]
          rw [hstep]
          exact List.mem_append_left _ he

/-- Every snapshot entry at the retry ceiling is recorded in the errors
list with the permanent-failure reason. -/
theorem foldl_syncStep_ceiling_error
    (fetchRes : OfflineStorage.QueuedRequest → Option Nat)
    (l : List OfflineStorage.QueuedRequest) :
    ∀ acc : SyncResult × List OfflineStorage.QueuedRequest × List String,
      ∀ r ∈ l, MAX_RETRIES ≤ r.retries →
      (r.id, "Max retries exceeded") ∈ (l.foldl (syncStep fetchRes) acc).1.errors := by
  induction l with
  | nil => intro acc r hr; cases hr
  | cons x xs ih =>
    intro acc r hr hceil
    rcases List.mem_cons.mp hr with h | h
    · subst h
      rw [List.foldl_cons]
      refine foldl_syncStep_errors_mono fetchRes xs _ _ ?_
      simp only [syncStep, if_pos hceil]
      exact List.mem_append_right _ (List.mem_singleton.mpr rfl)
    · rw [List.foldl_cons]
      exact ih _ r h hceil

/-- One step never introduces a queue record with a given absent id. -/
theorem syncStep_store_preserve
    (fetchRes : OfflineStorage.QueuedRequest → Option Nat)
    (acc : SyncResult × List OfflineStorage.QueuedRequest × List String)
    (x : OfflineStorage.QueuedRequest) (i : String)
    (h : ∀ p ∈ acc.2.1, p.id ≠ i) :
    ∀ p ∈ (syncStep fetchRes acc x).2.1, p.id ≠ i := by
  have hmap : ∀ p ∈ OfflineStorage.updateRetryCount x.id acc.2.1, p.id ≠ i := by
    intro p hp
    rcases List.mem_map.mp hp with ⟨q, hq, hfq⟩
    have hid : p.id = q.id := by
      rw [← hfq]
      by_cases he : q.id = x.id <;> simp [he]
    rw [hid]
    exact h q hq
  intro p hp
  by_cases hc : MAX_RETRIES ≤ x.retries
  · have hstep : (syncStep fetchRes acc x).2.1 =
        OfflineStorage.removeFromQueue x.id acc.2.1 := by
      simp only [syncStep, if_pos hc]
    rw [hstep] at hp
    exact h p (List.mem_of_mem_filter hp)
  · rcases hfr : fetchRes x with _ | s
    · have hstep : (syncStep fetchRes acc x).2.1 =
          OfflineStorage.updateRetryCount x.id acc.2.1 := by
        simp only [syncStep, if_neg hc, hfr]
      rw [hstep] at hp
      exact hmap p hp
    · by_cases hok : 200 ≤ s ∧ s < 300
      · have hstep : (syncStep fetchRes acc x).2.1 =
            OfflineStorage.removeFromQueue x.id acc.2.1 := by
          simp only [syncStep, if_neg hc, hfr, if_pos hok]
        rw [hstep] at hp
        exact h p (List.mem_of_mem_filter hp)
      · have hstep : (syncStep fetchRes acc x).2.1 =
            OfflineStorage.updateRetryCount x.id acc.2.1 := by
          simp only [syncStep, if_neg hc, hfr, if_neg hok]
        rw [hstep] at hp
        exact hmap p hp

/-- A fold of steps never introduces a queue record with an absent id. -/
theorem foldl_syncStep_store_preserve
    (fetchRes : OfflineStorage.QueuedRequest → Option Nat)
    (l : List OfflineStorage.QueuedRequest) :
    ∀ (acc : SyncResult × List OfflineStorage.QueuedRequest × List String)
      (i : String), (∀ p ∈ acc.2.1, p.id ≠ i) →
      ∀ p ∈ (l.foldl (syncStep fetchRes) acc).2.1, p.id ≠ i := by
  induction l with
  | nil => intro acc i h p hp; exact h p hp
  | cons x xs ih =>
    intro acc i h
    rw [List.foldl_cons]
    exact ih _ i (syncStep_store_preserve fetchRes acc x i h)

/-- After the pass, no queue record carries the id of a snapshot entry
that was at the retry ceiling: the entry was removed. -/
theorem foldl_syncStep_ceiling_removed
    (fetchRes : OfflineStorage.QueuedRequest → Option Nat)
    (l : List OfflineStorage.QueuedRequest) :
    ∀ acc : SyncResult × List OfflineStorage.QueuedRequest × List String,
      ∀ r ∈ l, MAX_RETRIES ≤ r.retries →
      ∀ p ∈ (l.foldl (syncStep fetchRes) acc).2.1, p.id ≠ r.id := by
  induction l with
  | nil => intro acc r hr; cases hr
  | cons x xs ih =>
    intro acc r hr hceil
    rcases List.mem_cons.mp hr with h | h
    · subst h
      rw [List.foldl_cons]
      refine foldl_syncStep_store_preserve fetchRes xs _ _ ?_
      simp only [syncStep, if_pos hceil]
      intro p hp
      have := List.of_mem_filter hp
      simpa using this
    · rw [List.foldl_cons]
      exact ih _ r h hceil

end BackgroundSync

end Stupify

namespace Stupify

/-- Filtering with a weaker predicate keeps at least as many elements. -/
theorem filter_length_mono {α : Type} (p q : α → Bool) (l : List α)
    (h : ∀ a ∈ l, p a = true → q a = true) :
    (l.filter p).length ≤ (l.filter q).length := by
  induction l with
  | nil => simp
  | cons x xs ih =>
    have hxs : ∀ a ∈ xs, p a = true → q a = true :=
      fun a ha => h a (List.mem_cons_of_mem x ha)
    rw [List.filter_cons, List.filter_cons]
    by_cases hp : p x = true
    · rw [if_pos hp, if_pos (h x (List.mem_cons_self x xs) hp)]
      simpa using ih hxs
    · rw [if_neg hp]
      by_cases hq : q x = true
      · rw [if_pos hq]
        exact le_trans (ih hxs) (by simp)
      · rw [if_neg hq]
        exact ih hxs

/-- C4: during a sync pass, every queued entry at or above the retry
ceiling `MAX_RETRIES = 3` is counted into the failed total (the failed
total is at least the number of such entries), recorded in the errors
list with the permanent reason "Max retries exceeded", never given a
delivery attempt, and removed from the queue — so no later pass can
retry it. -/
theorem C4_retry_ceiling
    (fetchRes : OfflineStorage.QueuedRequest → Option Nat)
    (queue : List OfflineStorage.QueuedRequest)
    (hnodup : (queue.map (fun r => r.id)).Nodup) :
    (queue.filter (fun r => BackgroundSync.MAX_RETRIES ≤ r.retries)).length ≤
      (BackgroundSync.syncQueuedRequests fetchRes queue).1.failed ∧
    ∀ r ∈ queue, BackgroundSync.MAX_RETRIES ≤ r.retries →
      (r.id, "Max retries exceeded") ∈
        (BackgroundSync.syncQueuedRequests fetchRes queue).1.errors ∧
      r.id ∉ (BackgroundSync.syncQueuedRequests fetchRes queue).2.2 ∧
      ∀ p ∈ (BackgroundSync.syncQueuedRequests fetchRes queue).2.1, p.id ≠ r.id := by
  have hperm : List.Perm (OfflineStorage.getQueuedRequests queue) queue :=
    List.perm_insertionSort _ _
  constructor
  · have hfail := BackgroundSync.foldl_syncStep_failed fetchRes
      (OfflineStorage.getQueuedRequests queue) (⟨0, 0, []⟩, queue, [])
    unfold BackgroundSync.syncQueuedRequests
    rw [hfail]
    have hcount : (queue.filter (fun r =>
        BackgroundSync.MAX_RETRIES ≤ r.retries)).length =
        ((OfflineStorage.getQueuedRequests queue).filter (fun r =>
          BackgroundSync.MAX_RETRIES ≤ r.retries)).length :=
      (List.Perm.length_eq (List.Perm.filter _ hperm)).symm
    rw [hcount]
    have hmono := filter_length_mono
      (fun r => decide (BackgroundSync.MAX_RETRIES ≤ r.retries))
      (BackgroundSync.stepFails fetchRes)
      (OfflineStorage.getQueuedRequests queue)
      (by
        intro a _ hp
        simp only [BackgroundSync.stepFails, Bool.or_eq_true]
        exact Or.inl hp)
    omega
  · intro r hr hceil
    have hrs : r ∈ OfflineStorage.getQueuedRequests queue :=
      (List.Perm.mem_iff hperm).mpr hr
    refine ⟨?_, ?_, ?_⟩
    · exact BackgroundSync.foldl_syncStep_ceiling_error fetchRes _ _ r hrs hceil
    · have hatt := BackgroundSync.foldl_syncStep_attempted fetchRes
        (OfflineStorage.getQueuedRequests queue) (⟨0, 0, []⟩, queue, [])
      unfold BackgroundSync.syncQueuedRequests
      rw [hatt]
      simp only [List.nil_append]
      intro hmem
      rcases List.mem_map.mp hmem with ⟨p, hp, hpid⟩
      have hps : p ∈ OfflineStorage.getQueuedRequests queue :=
        List.mem_of_mem_filter hp
      have hplt := List.of_mem_filter hp
      simp only [decide_eq_true_eq] at hplt
      have hpq : p ∈ queue := (List.Perm.mem_iff hperm).mp hps
      have : p = r := List.inj_on_of_nodup_map hnodup hpq hr hpid
      rw [this] at hplt
      omega
    · exact BackgroundSync.foldl_syncStep_ceiling_removed fetchRes _ _ r hrs hceil

/-- Witness for C4: a queue holding one exhausted entry (3 retries) and
one fresh entry; the exhausted one is reported, unattempted and removed. -/
theorem C4_retry_ceiling_witness :
    ("dead", "Max retries exceeded") ∈
      (BackgroundSync.syncQueuedRequests (fun _ => some 200)
        [⟨"dead", "rating", "/r", "POST", none, 1, 3⟩,
         ⟨"live", "rating", "/r", "POST", none, 2, 0⟩]).1.errors ∧
    "dead" ∉
      (BackgroundSync.syncQueuedRequests (fun _ => some 200)
        [⟨"dead", "rating", "/r", "POST", none, 1, 3⟩,
         ⟨"live", "rating", "/r", "POST", none, 2, 0⟩]).2.2 := by
  have h := (C4_retry_ceiling (fun _ => some 200)
    [⟨"dead", "rating", "/r", "POST", none, 1, 3⟩,
     ⟨"live", "rating", "/r", "POST", none, 2, 0⟩] (by decide)).2
    ⟨"dead", "rating", "/r", "POST", none, 1, 3⟩ (by decide) (by decide)
  exact ⟨h.1, h.2.1⟩

end Stupify

/-! ## C8: listing and delivery order of the request queue -/

namespace Stupify

/-- C8 counterexample: the queue store's key is the id string
`kind-timestamp-suffix`, and `getAll` returns records in ascending key
order — so a rating enqueued at time 1 lists after an analytics entry
enqueued at time 2 (the letter a sorts before the letter r).  Listing is
therefore not oldest-first across kinds, contrary to the claim. -/
theorem C8_counterexample :
    ((OfflineStorage.getQueuedRequests
      (OfflineStorage.queueRequest
        (OfflineStorage.queueRequest [] "rating" "/r" "POST" none 1 "aa")
        "analytics" "/a" "POST" none 2 "bb")).map (fun r => r.timestamp)) = [2, 1] ∧
    ([2, 1] : List Nat) ≠ [1, 2] := by
  constructor
  · decide
  · decide

/-- C8 (amended): listing the request queue returns all live entries
ordered by ascending id — the id begins with the request kind, so this
coincides with enqueue order only among entries of the same kind — and a
single sync pass attempts delivery of exactly the below-ceiling entries
of that listing, in that listed order. -/
theorem C8_list_order_amended
    (fetchRes : OfflineStorage.QueuedRequest → Option Nat)
    (queue : List OfflineStorage.QueuedRequest) :
    List.Perm (OfflineStorage.getQueuedRequests queue) queue ∧
    List.Sorted (fun a b : OfflineStorage.QueuedRequest => a.id.data ≤ b.id.data)
      (OfflineStorage.getQueuedRequests queue) ∧
    (BackgroundSync.syncQueuedRequests fetchRes queue).2.2 =
      ((OfflineStorage.getQueuedRequests queue).filter
        (fun r => r.retries < BackgroundSync.MAX_RETRIES)).map (fun r => r.id) := by
  refine ⟨List.perm_insertionSort _ _, ?_, ?_⟩
  · haveI : IsTotal OfflineStorage.QueuedRequest
        (fun a b => a.id.data ≤ b.id.data) := ⟨fun a b => le_total _ _⟩
    haveI : IsTrans OfflineStorage.QueuedRequest
        (fun a b => a.id.data ≤ b.id.data) := ⟨fun _ _ _ h1 h2 => le_trans h1 h2⟩
    exact List.sorted_insertionSort _ _
  · have hatt := BackgroundSync.foldl_syncStep_attempted fetchRes
      (OfflineStorage.getQueuedRequests queue) (⟨0, 0, []⟩, queue, [])
    unfold BackgroundSync.syncQueuedRequests
    rw [hatt]
    simp

end Stupify

/-! ## C9: status publication at the end of a sync pass -/

namespace Stupify

/-- C9 counterexample: a pass with one delivered and one failed item
publishes TWO terminal statuses — `success 1` and then the mixed
status — not exactly one, because the source publishes `success`
whenever `result.success > 0` even if some items failed. -/
theorem C9_counterexample :
    (BackgroundSync.syncNow
        (fun r => if r.id = "a" then some 200 else some 500) (fun _ => true)
        ⟨false, false,
          [⟨"a", "rating", "/r", "POST", none, 1, 0⟩,
           ⟨"b", "rating", "/s", "POST", none, 2, 0⟩], []⟩).statuses =
      [.syncing 0, .success 1, .mixed 1 1] ∧
    ((BackgroundSync.syncNow
        (fun r => if r.id = "a" then some 200 else some 500) (fun _ => true)
        ⟨false, false,
          [⟨"a", "rating", "/r", "POST", none, 1, 0⟩,
           ⟨"b", "rating", "/s", "POST", none, 2, 0⟩], []⟩).statuses.filter
      (fun s => match s with
        | BackgroundSync.SyncStatus.syncing _ => false
        | _ => true)).length = 2 := by
  constructor
  · decide
  · decide

/-- C9 (amended): a pass that actually runs publishes `syncing` and then:
`success n` alone when n > 0 items succeeded and none failed; `success n`
AND the mixed status, in that order, when some succeeded and some failed;
the mixed status alone when only failures occurred; `idle` when nothing
was processed.  The `error` status is never published by the model — the
two inner passes catch their own exceptions, matching the source where
the outer catch is unreachable in normal operation. -/
theorem C9_status_publication_amended
    (fetchRes : OfflineStorage.QueuedRequest → Option Nat)
    (trackOk : OfflineStorage.OfflineAnalytic → Bool)
    (st : BackgroundSync.SyncState) (out : BackgroundSync.SyncOutcome)
    (h1 : st.isSyncing = false) (h2 : st.isOffline = false)
    (hout : BackgroundSync.syncNow fetchRes trackOk st = out) :
    (0 < out.result.success ∧ out.result.failed = 0 →
        out.statuses = [.syncing 0, .success out.result.success]) ∧
    (0 < out.result.success ∧ 0 < out.result.failed →
        out.statuses = [.syncing 0, .success out.result.success,
                        .mixed out.result.success out.result.failed]) ∧
    (out.result.success = 0 ∧ 0 < out.result.failed →
        out.statuses = [.syncing 0, .mixed 0 out.result.failed]) ∧
    (out.result.success = 0 ∧ out.result.failed = 0 →
        out.statuses = [.syncing 0, .idle]) ∧
    (∀ msg, BackgroundSync.SyncStatus.error msg ∉ out.statuses) := by
  subst hout
  unfold BackgroundSync.syncNow
  rw [h1, h2]
  simp only [Bool.false_eq_true, if_false]
  refine ⟨?_, ?_, ?_, ?_, ?_⟩
  · rintro ⟨hs, hf⟩
    rw [if_pos hs, if_neg (by omega), if_neg (by omega)]
    rfl
  · rintro ⟨hs, hf⟩
    rw [if_pos hs, if_pos hf, if_neg (by omega)]
    rfl
  · rintro ⟨hs, hf⟩
    rw [if_neg (by omega), if_pos hf, if_neg (by omega), hs]
    rfl
  · rintro ⟨hs, hf⟩
    rw [if_neg (by omega), if_neg (by omega), if_pos ⟨hs, hf⟩]
    rfl
  · intro msg hmem
    rcases List.mem_append.mp hmem with hmem2 | h
    · rcases List.mem_append.mp hmem2 with hmem3 | h
      · rcases List.mem_append.mp hmem3 with h | h
        · simp at h
        · split at h <;> simp at h
      · split at h <;> simp at h
    · split at h <;> simp at h

/-- Witness for C9 (amended) at a mixed outcome: one delivery succeeds,
one fails, and both terminal statuses appear. -/
theorem C9_status_publication_amended_witness :
    (BackgroundSync.syncNow
        (fun r => if r.id = "ok" then some 200 else none) (fun _ => true)
        ⟨false, false,
          [⟨"ok", "rating", "/r", "POST", none, 1, 0⟩,
           ⟨"zz", "analytics", "/s", "POST", none, 2, 0⟩], []⟩).statuses =
      [.syncing 0, .success 1, .mixed 1 1] := by
  have h := (C9_status_publication_amended
    (fun r => if r.id = "ok" then some 200 else none) (fun _ => true)
    ⟨false, false,
      [⟨"ok", "rating", "/r", "POST", none, 1, 0⟩,
       ⟨"zz", "analytics", "/s", "POST", none, 2, 0⟩], []⟩
    _ rfl rfl rfl).2.1 (by decide)
  rw [h]
  decide

end Stupify

/-! ## C10: behaviour on HTTP 401 -/

namespace Stupify

/-- C10 counterexample: a POST with the default `queueIfOffline = true`
that receives a 401 while online does invalidate the token, but the
caller gets QUEUED_NETWORK_ERROR — not the unauthorized outcome — and
the rejected request is even enqueued for replay.  The claim's "for
every method and every value of queueIfOffline" is false. -/
theorem C10_counterexample :
    (OfflineAwareAPI.request 5 ⟨some "tok", [], []⟩ false (some ⟨401, "denied"⟩)
        "/api/explanations/rate" (some "POST") true none "sfx").1 =
      .queuedNetworkError ∧
    (OfflineAwareAPI.request 5 ⟨some "tok", [], []⟩ false (some ⟨401, "denied"⟩)
        "/api/explanations/rate" (some "POST") true none "sfx").2.1.authToken = none ∧
    ((OfflineAwareAPI.request 5 ⟨some "tok", [], []⟩ false (some ⟨401, "denied"⟩)
        "/api/explanations/rate" (some "POST") true none "sfx").2.1.queue.map
      (fun r => r.type)) = ["rating"] := by
  refine ⟨?_, ?_, ?_⟩
  · decide
  · decide
  · decide

/-- C10 (amended): every 401 received while online removes the stored
auth token, and the network was consulted.  But the caller sees the
unauthorized outcome only when the request is not queueable (it is a GET
or has no method, or `queueIfOffline` is false) and, for a read, no fresh
cached response exists; a queueable non-GET instead surfaces the queued
outcome (and is enqueued), and a read with a fresh cached response gets
the cached data. -/
theorem C10_unauthorized_amended
    (now : Nat) (st : OfflineAwareAPI.APIState)
    (resp : OfflineAwareAPI.HttpResponse) (url : String)
    (method : Option String) (queueIfOffline : Bool)
    (body : Option String) (suffix : String)
    (out : OfflineAwareAPI.RequestOutcome × OfflineAwareAPI.APIState × Bool)
    (h401 : resp.status = 401)
    (hout : OfflineAwareAPI.request now st false (some resp) url method
        queueIfOffline body suffix = out) :
    out.2.1.authToken = none ∧
    out.2.2 = true ∧
    (out.1 = .unauthorized ↔
      ¬ (queueIfOffline = true ∧ method ≠ some "GET") ∧
      (OfflineAwareAPI.isGetOrAbsent method = true →
        OfflineAwareAPI.getCachedResponse now st.responseCache url = none)) ∧
    (out.1 = .queuedNetworkError ↔
      (queueIfOffline = true ∧ method ≠ some "GET")) := by
  subst hout
  simp only [OfflineAwareAPI.request, Bool.false_eq_true, if_false]
  rw [if_pos h401]
  simp only [OfflineAwareAPI.requestCatch]
  by_cases hq : queueIfOffline = true ∧ method ≠ some "GET"
  · rw [if_pos hq]
    simp [hq]
  · rw [if_neg hq]
    by_cases hget : OfflineAwareAPI.isGetOrAbsent method = true
    · rw [if_pos hget]
      rcases hc : OfflineAwareAPI.getCachedResponse now st.responseCache url with _ | d
      · simp [hc, hq, hget]
      · simp [hc, hq, hget]
    · rw [if_neg hget]
      simp [hq, hget]

/-- Witness for C10 (amended): a GET receiving 401 with no cached
response surfaces the unauthorized outcome and loses the token. -/
theorem C10_unauthorized_amended_witness :
    (OfflineAwareAPI.request 5 ⟨some "tok", [], []⟩ false (some ⟨401, "denied"⟩)
        "/api/user" (some "GET") true none "sfx").2.1.authToken = none ∧
    (OfflineAwareAPI.request 5 ⟨some "tok", [], []⟩ false (some ⟨401, "denied"⟩)
        "/api/user" (some "GET") true none "sfx").1 = .unauthorized := by
  have h := C10_unauthorized_amended 5 ⟨some "tok", [], []⟩ ⟨401, "denied"⟩
    "/api/user" (some "GET") true none "sfx" _ rfl rfl
  refine ⟨h.1, ?_⟩
  exact h.2.2.1.mpr ⟨by simp, fun _ => rfl⟩

end Stupify

/-! ## C6: capacity and eviction -/

namespace Stupify

/-- Truncating the tail before or after appending makes no difference
when the final truncation is at least as tight. -/
theorem take_append_take {α : Type} :
    ∀ (A : List α) (m n : Nat) (B : List α), m ≤ n →
      (A ++ B.take n).take m = (A ++ B).take m := by
  intro A
  induction A with
  | nil =>
    intro m n B h
    simp only [List.nil_append, List.take_take]
    rw [min_eq_left h]
  | cons a A' ih =>
    intro m n B h
    cases m with
    | zero => simp
    | succ m' =>
      simp only [List.cons_append, List.take_succ_cons]
      rw [ih m' n B (le_trans (Nat.le_succ m') h)]

/-- Folding `CacheService.add` over keys with pairwise-distinct
normalized (question, tier) pairs, none already present, builds exactly
the reversed insertion list truncated to capacity. -/
theorem foldl_add_distinct (now : Nat) (ans : String) :
    ∀ (ks : List (String × ComplexityLevel)) (c : List CachedExplanation),
      c.length ≤ CacheService.MAX_CACHE_SIZE →
      (ks.map (fun k => (normalize k.1, k.2))).Nodup →
      (∀ k ∈ ks, ∀ e ∈ c, ¬(e.question = normalize k.1 ∧ e.complexity_level = k.2)) →
      ks.foldl (fun cc k => CacheService.add now k.1 ans k.2 cc) c =
        ((ks.map (fun k =>
            (⟨normalize k.1, ans, k.2, now⟩ : CachedExplanation))).reverse ++ c).take
          CacheService.MAX_CACHE_SIZE := by
  intro ks
  induction ks with
  | nil =>
    intro c hc _ _
    simp only [List.foldl_nil, List.map_nil, List.reverse_nil, List.nil_append]
    exact (List.take_all_of_le hc).symm
  | cons k ks' ih =>
    intro c hc hnodup hfresh
    rw [List.map_cons] at hnodup
    have hnc := List.nodup_cons.mp hnodup
    rw [List.foldl_cons]
    have hstep : CacheService.add now k.1 ans k.2 c =
        ((⟨normalize k.1, ans, k.2, now⟩ : CachedExplanation) :: c).take
          CacheService.MAX_CACHE_SIZE := by
      simp only [CacheService.add]
      have hfilter : c.filter (fun item =>
          ¬ (item.question = normalize k.1 ∧ item.complexity_level = k.2)) = c := by
        rw [List.filter_eq_self]
        intro e he
        simp only [decide_eq_true_eq]
        exact hfresh k (List.mem_cons_self k ks') e he
      rw [hfilter]
    rw [hstep]
    have hkey : (normalize k.1, k.2) ∉ ks'.map (fun k => (normalize k.1, k.2)) := hnc.1
    have hres := ih (((⟨normalize k.1, ans, k.2, now⟩ : CachedExplanation) :: c).take
        CacheService.MAX_CACHE_SIZE)
      (by simpa using List.length_take_le _ _)
      hnc.2
      (by
        intro k2 hk2 e he
        have hec : e ∈ (⟨normalize k.1, ans, k.2, now⟩ : CachedExplanation) :: c :=
          List.take_subset _ _ he
        rcases List.mem_cons.mp hec with h | h
        · rw [h]
          intro hcon
          exact hkey (by
            refine List.mem_map.mpr ⟨k2, hk2, ?_⟩
            exact Prod.ext hcon.1.symm hcon.2.symm)
        · exact hfresh k2 (List.mem_cons_of_mem k hk2) e h)
    rw [hres]
    rw [take_append_take _ _ _ _ (le_refl _)]
    rw [List.map_cons, List.reverse_cons, List.append_assoc]
    rfl

set_option maxRecDepth 100000 in
/-- C6 counterexample: inserting 101 distinct entries into the durable
capacity-100 store leaves 96 live entries, not 100, and removes the five
oldest (ids 1..5), not just the single oldest. -/
theorem C6_counterexample :
    ((List.range 101).foldl
      (fun st i => OfflineStorage.cacheExplanation i st ("q" ++ Nat.repr i) "a" .normal)
      OfflineStorage.emptyExplanations).entries.length = 96 ∧
    (96 : Nat) ≠ 100 ∧
    ∀ p ∈ ((List.range 101).foldl
      (fun st i => OfflineStorage.cacheExplanation i st ("q" ++ Nat.repr i) "a" .normal)
      OfflineStorage.emptyExplanations).entries, 6 ≤ p.1 := by
  refine ⟨by decide, by decide, by decide⟩

set_option maxRecDepth 100000 in
/-- C6 (amended): the in-memory cache keeps the claim — inserting 11
distinct (question, tier) entries into the empty capacity-10 cache
leaves exactly the 10 newest entries, evicting the first-inserted one.
The durable store does not: when at its capacity of 100 it deletes the 5
oldest records before adding, so the 101st distinct insert leaves 96
records with the five oldest gone. -/
theorem C6_capacity_amended
    (now : Nat) (ans : String) (k0 : String × ComplexityLevel)
    (rest : List (String × ComplexityLevel))
    (hlen : rest.length = 10)
    (hnodup : ((k0 :: rest).map (fun k => (normalize k.1, k.2))).Nodup) :
    ((k0 :: rest).foldl (fun cc k => CacheService.add now k.1 ans k.2 cc) []).length = 10 ∧
    (⟨normalize k0.1, ans, k0.2, now⟩ : CachedExplanation) ∉
      (k0 :: rest).foldl (fun cc k => CacheService.add now k.1 ans k.2 cc) [] ∧
    (∀ k ∈ rest, (⟨normalize k.1, ans, k.2, now⟩ : CachedExplanation) ∈
      (k0 :: rest).foldl (fun cc k => CacheService.add now k.1 ans k.2 cc) []) ∧
    ((List.range 101).foldl
      (fun st i => OfflineStorage.cacheExplanation i st ("q" ++ Nat.repr i) "a" .normal)
      OfflineStorage.emptyExplanations).entries.length = 96 ∧
    (∀ p ∈ ((List.range 101).foldl
      (fun st i => OfflineStorage.cacheExplanation i st ("q" ++ Nat.repr i) "a" .normal)
      OfflineStorage.emptyExplanations).entries, 6 ≤ p.1) := by
  have hfold := foldl_add_distinct now ans (k0 :: rest) [] (by simp) hnodup
    (by intro k _ e he; cases he)
  have htoE : (k0 :: rest).map (fun k =>
      (⟨normalize k.1, ans, k.2, now⟩ : CachedExplanation)) =
      (⟨normalize k0.1, ans, k0.2, now⟩ : CachedExplanation) ::
        rest.map (fun k => (⟨normalize k.1, ans, k.2, now⟩ : CachedExplanation)) :=
    List.map_cons _ _ _
  have hlen10 : (rest.map (fun k =>
      (⟨normalize k.1, ans, k.2, now⟩ : CachedExplanation))).reverse.length = 10 := by
    simp [hlen]
  have hfinal : (k0 :: rest).foldl (fun cc k => CacheService.add now k.1 ans k.2 cc) [] =
      (rest.map (fun k => (⟨normalize k.1, ans, k.2, now⟩ : CachedExplanation))).reverse := by
    rw [hfold, htoE, List.reverse_cons, List.append_nil]
    have hmax : CacheService.MAX_CACHE_SIZE =
        (rest.map (fun k =>
          (⟨normalize k.1, ans, k.2, now⟩ : CachedExplanation))).reverse.length :=
      hlen10.symm
    rw [hmax]
    exact List.take_left _ _
  rw [hfinal]
  rw [List.map_cons] at hnodup
  have hkey0 : (normalize k0.1, k0.2) ∉ rest.map (fun k => (normalize k.1, k.2)) :=
    (List.nodup_cons.mp hnodup).1
  refine ⟨hlen10, ?_, ?_, by decide, by decide⟩
  · intro hmem
    rcases List.mem_map.mp (List.mem_reverse.mp hmem) with ⟨k, hk, hkeq⟩
    refine hkey0 (List.mem_map.mpr ⟨k, hk, ?_⟩)
    have h1 : normalize k.1 = normalize k0.1 := congrArg CachedExplanation.question hkeq
    have h2 : k.2 = k0.2 := congrArg CachedExplanation.complexity_level hkeq
    exact Prod.ext h1 h2
  · intro k hk
    exact List.mem_reverse.mpr (List.mem_map.mpr ⟨k, hk, rfl⟩)

/-- Witness for C6 (amended) on 11 concrete distinct questions. -/
theorem C6_capacity_amended_witness :
    (([("q0", ComplexityLevel.normal), ("q1", ComplexityLevel.normal),
       ("q2", ComplexityLevel.normal), ("q3", ComplexityLevel.normal),
       ("q4", ComplexityLevel.normal), ("q5", ComplexityLevel.normal),
       ("q6", ComplexityLevel.normal), ("q7", ComplexityLevel.normal),
       ("q8", ComplexityLevel.normal), ("q9", ComplexityLevel.normal),
       ("qA", ComplexityLevel.normal)]).foldl
      (fun cc k => CacheService.add 3 k.1 "ans" k.2 cc) []).length = 10 ∧
    (⟨"q0", "ans", ComplexityLevel.normal, 3⟩ : CachedExplanation) ∉
      (([("q0", ComplexityLevel.normal), ("q1", ComplexityLevel.normal),
         ("q2", ComplexityLevel.normal), ("q3", ComplexityLevel.normal),
         ("q4", ComplexityLevel.normal), ("q5", ComplexityLevel.normal),
         ("q6", ComplexityLevel.normal), ("q7", ComplexityLevel.normal),
         ("q8", ComplexityLevel.normal), ("q9", ComplexityLevel.normal),
         ("qA", ComplexityLevel.normal)]).foldl
        (fun cc k => CacheService.add 3 k.1 "ans" k.2 cc) []) := by
  have h := C6_capacity_amended 3 "ans" ("q0", ComplexityLevel.normal)
    [("q1", ComplexityLevel.normal), ("q2", ComplexityLevel.normal),
     ("q3", ComplexityLevel.normal), ("q4", ComplexityLevel.normal),
     ("q5", ComplexityLevel.normal), ("q6", ComplexityLevel.normal),
     ("q7", ComplexityLevel.normal), ("q8", ComplexityLevel.normal),
     ("q9", ComplexityLevel.normal), ("qA", ComplexityLevel.normal)]
    (by decide) (by decide)
  exact ⟨h.1, by simpa using h.2.1⟩

end Stupify

/-! ## C5: fuzzy-match characterization -/

namespace Stupify

/-- `find?` returns the first element satisfying the predicate. -/
theorem find?_first {α : Type} (p : α → Bool) :
    ∀ (l : List α) (a : α), l.find? p = some a →
      p a = true ∧ ∃ pre post, l = pre ++ a :: post ∧ ∀ x ∈ pre, p x = false := by
  intro l
  induction l with
  | nil => intro a h; cases h
  | cons x xs ih =>
    intro a h
    rw [List.find?_cons] at h
    by_cases hx : p x = true
    · simp only [hx] at h
      cases h
      exact ⟨hx, [], xs, rfl, fun y hy => absurd hy (List.not_mem_nil y)⟩
    · rw [Bool.not_eq_true] at hx
      simp only [hx] at h
      rcases ih a h with ⟨hpa, pre, post, heq, hpre⟩
      refine ⟨hpa, x :: pre, post, by rw [heq]; rfl, ?_⟩
      intro y hy
      rcases List.mem_cons.mp hy with h2 | h2
      · rw [h2]; exact hx
      · exact hpre y h2

namespace OfflineStorage

/-- The fraction order is asymmetric. -/
theorem scoreGt_asymm {x y : Nat × Nat} (h : scoreGt x y = true) :
    scoreGt y x = false := by
  simp only [scoreGt, decide_eq_true_eq] at h
  simp only [scoreGt, decide_eq_false_iff_not]
  omega

/-- A score at most 0.7 is strictly below a score above 0.7. -/
theorem scoreGt_threshold_strict {x b : Nat × Nat} (hx2 : 0 < x.2)
    (hx : scoreAboveThreshold x = false) (hb : scoreAboveThreshold b = true) :
    scoreGt b x = true := by
  simp only [scoreAboveThreshold, decide_eq_false_iff_not, decide_eq_true_eq] at hx hb
  simp only [scoreGt, decide_eq_true_eq]
  -- hx : ¬ 7 * x.2 < 10 * x.1, hb : 7 * b.2 < 10 * b.1; show x.1 * b.2 < b.1 * x.2
  have h1 : 10 * (x.1 * b.2) ≤ 7 * x.2 * b.2 := by
    have := Nat.mul_le_mul_right b.2 (by omega : 10 * x.1 ≤ 7 * x.2)
    calc 10 * (x.1 * b.2) = 10 * x.1 * b.2 := by ring
    _ ≤ 7 * x.2 * b.2 := this
  have h2 : 7 * x.2 * b.2 < 10 * (b.1 * x.2) := by
    have := Nat.mul_lt_mul_of_lt_of_le hb (Nat.le_refl x.2) hx2
    calc 7 * x.2 * b.2 = 7 * b.2 * x.2 := by ring
    _ < 10 * b.1 * x.2 := this
    _ = 10 * (b.1 * x.2) := by ring
  omega

/-- A score at most 0.7 never beats a score above 0.7. -/
theorem not_scoreGt_of_threshold {x b : Nat × Nat} (hx2 : 0 < x.2)
    (hx : scoreAboveThreshold x = false) (hb : scoreAboveThreshold b = true) :
    scoreGt x b = false :=
  scoreGt_asymm (scoreGt_threshold_strict hx2 hx hb)

/-- Once the cursor loop holds a best match it always delivers some
record. -/
theorem getLoop_some_of_some (now : Nat) (nq : String) (lvl : ComplexityLevel) :
    ∀ (l : List (Nat × CachedExplanation)) (m : CachedExplanation)
      (bestScore : Nat × Nat),
      ∃ b, getLoop now nq lvl (some m) bestScore l = some b := by
  intro l
  induction l with
  | nil => intro m bestScore; exact ⟨m, rfl⟩
  | cons x rest ih =>
    intro m bestScore
    simp only [getLoop]
    by_cases hexp : CACHE_EXPIRY < now - x.2.cached_at
    · rw [if_pos hexp]; exact ih m bestScore
    · rw [if_neg hexp]
      by_cases hlvl : x.2.complexity_level = lvl
      · rw [if_pos hlvl]
        by_cases h1 : scoreEqOne (calculateSimilarity nq x.2.question) = true
        · rw [if_pos h1]; exact ⟨x.2, rfl⟩
        · rw [if_neg h1]
          by_cases h2 : scoreGt (calculateSimilarity nq x.2.question) bestScore = true ∧
              scoreAboveThreshold (calculateSimilarity nq x.2.question) = true
          · rw [if_pos h2]; exact ih x.2 _
          · rw [if_neg h2]; exact ih m bestScore
      · rw [if_neg hlvl]; exact ih m bestScore

/-- From the empty accumulator, the cursor loop delivers some record as
soon as one live same-tier candidate scores above the threshold. -/
theorem getLoop_exists (now : Nat) (nq : String) (lvl : ComplexityLevel) :
    ∀ (l : List (Nat × CachedExplanation)),
      (∃ p ∈ l, ¬ CACHE_EXPIRY < now - p.2.cached_at ∧
        p.2.complexity_level = lvl ∧
        scoreAboveThreshold (calculateSimilarity nq p.2.question) = true) →
      ∃ b, getLoop now nq lvl none (0, 1) l = some b := by
  intro l
  induction l with
  | nil => rintro ⟨p, hp, -⟩; cases hp
  | cons x rest ih =>
    rintro ⟨p, hp, hplive, hplvl, hpthr⟩
    simp only [getLoop]
    by_cases hexp : CACHE_EXPIRY < now - x.2.cached_at
    · rw [if_pos hexp]
      refine ih ⟨p, ?_, hplive, hplvl, hpthr⟩
      rcases List.mem_cons.mp hp with h | h
      · rw [h] at hplive; exact absurd hexp hplive
      · exact h
    · rw [if_neg hexp]
      by_cases hlvl : x.2.complexity_level = lvl
      · rw [if_pos hlvl]
        by_cases h1 : scoreEqOne (calculateSimilarity nq x.2.question) = true
        · rw [if_pos h1]; exact ⟨x.2, rfl⟩
        · rw [if_neg h1]
          by_cases h2 : scoreGt (calculateSimilarity nq x.2.question) (0, 1) = true ∧
              scoreAboveThreshold (calculateSimilarity nq x.2.question) = true
          · rw [if_pos h2]; exact getLoop_some_of_some now nq lvl rest x.2 _
          · rw [if_neg h2]
            refine ih ⟨p, ?_, hplive, hplvl, hpthr⟩
            rcases List.mem_cons.mp hp with h | h
            · exfalso
              rw [h] at hpthr
              refine h2 ⟨?_, hpthr⟩
              simp only [scoreGt, decide_eq_true_eq]
              have := hpthr
              simp only [scoreAboveThreshold, decide_eq_true_eq] at this
              simp only [Nat.mul_one, Nat.zero_mul]
              omega
            · exact h
      · rw [if_neg hlvl]
        refine ih ⟨p, ?_, hplive, hplvl, hpthr⟩
        rcases List.mem_cons.mp hp with h | h
        · rw [h] at hplvl; exact absurd hplvl hlvl
        · exact h

end OfflineStorage

end Stupify

namespace Stupify

namespace OfflineStorage

/-- The cursor loop's result (when no candidate scores 1.0) is above the
0.7 threshold, at least the incoming best score, and at least the score
of every live same-tier record of the remaining cursor. -/
theorem getLoop_max (now : Nat) (nq : String) (lvl : ComplexityLevel) :
    ∀ (l : List (Nat × CachedExplanation)) (best : Option CachedExplanation)
      (bestScore : Nat × Nat) (b : CachedExplanation),
      0 < bestScore.2 →
      (∀ m, best = some m → bestScore = calculateSimilarity nq m.question ∧
          scoreAboveThreshold bestScore = true) →
      (∀ p ∈ l, ¬ CACHE_EXPIRY < now - p.2.cached_at → p.2.complexity_level = lvl →
          scoreEqOne (calculateSimilarity nq p.2.question) = false) →
      getLoop now nq lvl best bestScore l = some b →
      scoreAboveThreshold (calculateSimilarity nq b.question) = true ∧
      scoreGt bestScore (calculateSimilarity nq b.question) = false ∧
      ∀ p ∈ l, ¬ CACHE_EXPIRY < now - p.2.cached_at → p.2.complexity_level = lvl →
        scoreGt (calculateSimilarity nq p.2.question)
          (calculateSimilarity nq b.question) = false := by
  intro l
  induction l with
  | nil =>
    intro best bestScore b hden hbest hno1 h
    simp only [getLoop] at h
    rcases hbest b h with ⟨hbs, hthr⟩
    refine ⟨by rw [← hbs]; exact hthr, ?_, ?_⟩
    · rw [hbs]
      simp only [scoreGt, decide_eq_false_iff_not]
      omega
    · intro p hp; cases hp
  | cons x rest ih =>
    intro best bestScore b hden hbest hno1 h
    have hno1r : ∀ p ∈ rest, ¬ CACHE_EXPIRY < now - p.2.cached_at →
        p.2.complexity_level = lvl →
        scoreEqOne (calculateSimilarity nq p.2.question) = false :=
      fun p hp => hno1 p (List.mem_cons_of_mem x hp)
    simp only [getLoop] at h
    by_cases hexp : CACHE_EXPIRY < now - x.2.cached_at
    · rw [if_pos hexp] at h
      rcases ih best bestScore b hden hbest hno1r h with ⟨h1, h2, h3⟩
      refine ⟨h1, h2, ?_⟩
      intro p hp hplive hplvl
      rcases List.mem_cons.mp hp with hpx | hpx
      · rw [hpx] at hplive; exact absurd hexp hplive
      · exact h3 p hpx hplive hplvl
    · rw [if_neg hexp] at h
      by_cases hlvl : x.2.complexity_level = lvl
      · rw [if_pos hlvl] at h
        have hs1 : scoreEqOne (calculateSimilarity nq x.2.question) = false :=
          hno1 x (List.mem_cons_self x rest) hexp hlvl
        rw [if_neg (by simp [hs1])] at h
        have hx2 : 0 < (calculateSimilarity nq x.2.question).2 :=
          calculateSimilarity_den_pos _ _
        by_cases h2c : scoreGt (calculateSimilarity nq x.2.question) bestScore = true ∧
            scoreAboveThreshold (calculateSimilarity nq x.2.question) = true
        · rw [if_pos h2c] at h
          rcases ih (some x.2) (calculateSimilarity nq x.2.question) b hx2
            (by intro m hm; cases hm; exact ⟨rfl, h2c.2⟩) hno1r h with ⟨h1, h2, h3⟩
          have e1 : bestScore.1 * (calculateSimilarity nq x.2.question).2 ≤
              (calculateSimilarity nq x.2.question).1 * bestScore.2 := by
            have := h2c.1
            simp only [scoreGt, decide_eq_true_eq] at this
            omega
          have e2 : (calculateSimilarity nq x.2.question).1 *
              (calculateSimilarity nq b.question).2 ≤
              (calculateSimilarity nq b.question).1 *
                (calculateSimilarity nq x.2.question).2 := by
            have := h2
            simp only [scoreGt, decide_eq_false_iff_not] at this
            omega
          have e3 := fracLe_trans hx2 e1 e2
          refine ⟨h1, ?_, ?_⟩
          · simp only [scoreGt, decide_eq_false_iff_not]
            omega
          · intro p hp hplive hplvl
            rcases List.mem_cons.mp hp with hpx | hpx
            · rw [hpx]; exact h2
            · exact h3 p hpx hplive hplvl
        · rw [if_neg h2c] at h
          rcases ih best bestScore b hden hbest hno1r h with ⟨h1, h2, h3⟩
          refine ⟨h1, h2, ?_⟩
          intro p hp hplive hplvl
          rcases List.mem_cons.mp hp with hpx | hpx
          · rw [hpx]
            by_cases hA : scoreGt (calculateSimilarity nq x.2.question) bestScore = true
            · have hB : scoreAboveThreshold (calculateSimilarity nq x.2.question) = false := by
                cases hB : scoreAboveThreshold (calculateSimilarity nq x.2.question) with
                | true => exact absurd ⟨hA, hB⟩ h2c
                | false => rfl
              exact not_scoreGt_of_threshold hx2 hB h1
            · rw [Bool.not_eq_true] at hA
              have e1 : (calculateSimilarity nq x.2.question).1 * bestScore.2 ≤
                  bestScore.1 * (calculateSimilarity nq x.2.question).2 := by
                simp only [scoreGt, decide_eq_false_iff_not] at hA
                omega
              have e2 : bestScore.1 * (calculateSimilarity nq b.question).2 ≤
                  (calculateSimilarity nq b.question).1 * bestScore.2 := by
                simp only [scoreGt, decide_eq_false_iff_not] at h2
                omega
              have e3 := fracLe_trans hden e1 e2
              simp only [scoreGt, decide_eq_false_iff_not]
              omega
          · exact h3 p hpx hplive hplvl
      · rw [if_neg hlvl] at h
        rcases ih best bestScore b hden hbest hno1r h with ⟨h1, h2, h3⟩
        refine ⟨h1, h2, ?_⟩
        intro p hp hplive hplvl
        rcases List.mem_cons.mp hp with hpx | hpx
        · rw [hpx] at hplvl; exact absurd hplvl hlvl
        · exact h3 p hpx hplive hplvl

end OfflineStorage

end Stupify

namespace Stupify

namespace OfflineStorage

/-- Unless it returns the incoming accumulator, the cursor loop's result
occurs in the cursor list, beats the incoming best score, and strictly
beats every live same-tier record that precedes it — ties in score go to
the first-encountered candidate. -/
theorem getLoop_first_max (now : Nat) (nq : String) (lvl : ComplexityLevel) :
    ∀ (l : List (Nat × CachedExplanation)) (best : Option CachedExplanation)
      (bestScore : Nat × Nat) (b : CachedExplanation),
      0 < bestScore.2 →
      (∀ m, best = some m → bestScore = calculateSimilarity nq m.question ∧
          scoreAboveThreshold bestScore = true) →
      (∀ p ∈ l, ¬ CACHE_EXPIRY < now - p.2.cached_at → p.2.complexity_level = lvl →
          scoreEqOne (calculateSimilarity nq p.2.question) = false) →
      getLoop now nq lvl best bestScore l = some b →
      best = some b ∨
      ∃ pre i post, l = pre ++ (i, b) :: post ∧
        scoreGt (calculateSimilarity nq b.question) bestScore = true ∧
        ∀ p ∈ pre, ¬ CACHE_EXPIRY < now - p.2.cached_at → p.2.complexity_level = lvl →
          scoreGt (calculateSimilarity nq b.question)
            (calculateSimilarity nq p.2.question) = true := by
  intro l
  induction l with
  | nil =>
    intro best bestScore b _ _ _ h
    simp only [getLoop] at h
    exact Or.inl h
  | cons x rest ih =>
    intro best bestScore b hden hbest hno1 h
    have hthr_b : scoreAboveThreshold (calculateSimilarity nq b.question) = true :=
      (getLoop_max now nq lvl (x :: rest) best bestScore b hden hbest hno1 h).1
    have hno1r : ∀ p ∈ rest, ¬ CACHE_EXPIRY < now - p.2.cached_at →
        p.2.complexity_level = lvl →
        scoreEqOne (calculateSimilarity nq p.2.question) = false :=
      fun p hp => hno1 p (List.mem_cons_of_mem x hp)
    simp only [getLoop] at h
    by_cases hexp : CACHE_EXPIRY < now - x.2.cached_at
    · rw [if_pos hexp] at h
      rcases ih best bestScore b hden hbest hno1r h with hl | ⟨pre, i, post, heq, hgtbs, hpre⟩
      · exact Or.inl hl
      · refine Or.inr ⟨x :: pre, i, post, by rw [heq]; rfl, hgtbs, ?_⟩
        intro p hp hplive hplvl
        rcases List.mem_cons.mp hp with hpx | hpx
        · rw [hpx] at hplive; exact absurd hexp hplive
        · exact hpre p hpx hplive hplvl
    · rw [if_neg hexp] at h
      by_cases hlvl : x.2.complexity_level = lvl
      · rw [if_pos hlvl] at h
        have hs1 : scoreEqOne (calculateSimilarity nq x.2.question) = false :=
          hno1 x (List.mem_cons_self x rest) hexp hlvl
        rw [if_neg (by simp [hs1])] at h
        have hx2 : 0 < (calculateSimilarity nq x.2.question).2 :=
          calculateSimilarity_den_pos _ _
        by_cases h2c : scoreGt (calculateSimilarity nq x.2.question) bestScore = true ∧
            scoreAboveThreshold (calculateSimilarity nq x.2.question) = true
        · rw [if_pos h2c] at h
          rcases ih (some x.2) (calculateSimilarity nq x.2.question) b hx2
            (by intro m hm; cases hm; exact ⟨rfl, h2c.2⟩) hno1r h with hl |
            ⟨pre, i, post, heq, hgtbs, hpre⟩
          · have hb : x.2 = b := Option.some.injEq _ _ ▸ hl
            refine Or.inr ⟨[], x.1, rest, ?_, ?_, ?_⟩
            · rw [List.nil_append, ← hb, Prod.mk.eta]
            · rw [← hb]; exact h2c.1
            · intro p hp; cases hp
          · refine Or.inr ⟨x :: pre, i, post, by rw [heq]; rfl, ?_, ?_⟩
            · have e1 : bestScore.1 * (calculateSimilarity nq x.2.question).2 ≤
                  (calculateSimilarity nq x.2.question).1 * bestScore.2 := by
                have := h2c.1
                simp only [scoreGt, decide_eq_true_eq] at this
                omega
              have e2 : (calculateSimilarity nq x.2.question).1 *
                  (calculateSimilarity nq b.question).2 <
                  (calculateSimilarity nq b.question).1 *
                    (calculateSimilarity nq x.2.question).2 := by
                have := hgtbs
                simp only [scoreGt, decide_eq_true_eq] at this
                omega
              have e3 := fracLe_lt_trans hden e1 e2
              simp only [scoreGt, decide_eq_true_eq]
              omega
            · intro p hp hplive hplvl
              rcases List.mem_cons.mp hp with hpx | hpx
              · rw [hpx]; exact hgtbs
              · exact hpre p hpx hplive hplvl
        · rw [if_neg h2c] at h
          rcases ih best bestScore b hden hbest hno1r h with hl |
            ⟨pre, i, post, heq, hgtbs, hpre⟩
          · exact Or.inl hl
          · refine Or.inr ⟨x :: pre, i, post, by rw [heq]; rfl, hgtbs, ?_⟩
            intro p hp hplive hplvl
            rcases List.mem_cons.mp hp with hpx | hpx
            · rw [hpx]
              by_cases hA : scoreGt (calculateSimilarity nq x.2.question) bestScore = true
              · have hB : scoreAboveThreshold (calculateSimilarity nq x.2.question) = false := by
                  cases hB : scoreAboveThreshold (calculateSimilarity nq x.2.question) with
                  | true => exact absurd ⟨hA, hB⟩ h2c
                  | false => rfl
                exact scoreGt_threshold_strict hx2 hB hthr_b
              · rw [Bool.not_eq_true] at hA
                have e1 : (calculateSimilarity nq x.2.question).1 * bestScore.2 ≤
                    bestScore.1 * (calculateSimilarity nq x.2.question).2 := by
                  simp only [scoreGt, decide_eq_false_iff_not] at hA
                  omega
                have e2 : bestScore.1 * (calculateSimilarity nq b.question).2 <
                    (calculateSimilarity nq b.question).1 * bestScore.2 := by
                  have := hgtbs
                  simp only [scoreGt, decide_eq_true_eq] at this
                  omega
                have e3 := fracLe_lt_trans hx2 e1 e2
                simp only [scoreGt, decide_eq_true_eq]
                omega
            · exact hpre p hpx hplive hplvl
      · rw [if_neg hlvl] at h
        rcases ih best bestScore b hden hbest hno1r h with hl |
          ⟨pre, i, post, heq, hgtbs, hpre⟩
        · exact Or.inl hl
        · refine Or.inr ⟨x :: pre, i, post, by rw [heq]; rfl, hgtbs, ?_⟩
          intro p hp hplive hplvl
          rcases List.mem_cons.mp hp with hpx | hpx
          · rw [hpx] at hplvl; exact absurd hplvl hlvl
          · exact hpre p hpx hplive hplvl

end OfflineStorage

end Stupify

namespace Stupify

/-- C5 counterexample: the in-memory variant does NOT return the
highest-scoring candidate.  With candidates "aaaa bbbb xxxx" (overlap
2/3) and "aaaa bbbb cccc" (overlap 3/3) for the query
"aaaa bbbb cccc dddd", `get` returns the first candidate over the 0.6
threshold in iteration order — the 2/3 one — although the other
candidate is live, same-tier, over the threshold and scores strictly
higher. -/
theorem C5_counterexample :
    CacheService.get 0
      [⟨"aaaa bbbb xxxx", "A1", .normal, 0⟩, ⟨"aaaa bbbb cccc", "A2", .normal, 0⟩]
      "aaaa bbbb cccc dddd" .normal = some ⟨"aaaa bbbb xxxx", "A1", .normal, 0⟩ ∧
    CacheService.isSimilar (normalize "aaaa bbbb cccc dddd") "aaaa bbbb cccc" = true ∧
    interSize (normalize "aaaa bbbb cccc dddd") "aaaa bbbb cccc" *
      min (tokenSet (normalize "aaaa bbbb cccc dddd")).length
        (tokenSet "aaaa bbbb xxxx").length >
    interSize (normalize "aaaa bbbb cccc dddd") "aaaa bbbb xxxx" *
      min (tokenSet (normalize "aaaa bbbb cccc dddd")).length
        (tokenSet "aaaa bbbb cccc").length := by
  refine ⟨by decide, by decide, by decide⟩

/-- C5 (amended): when no exact same-tier entry exists, the in-memory
`get` returns the FIRST live same-tier candidate in iteration order
whose overlap (intersection over the smaller token set) exceeds 0.6 —
not the highest-scoring one — and null exactly when no candidate
qualifies.  The durable `getCachedExplanation` (when no live same-tier
record scores exactly 1.0) does return a highest-scoring candidate:
any returned record scores above 0.7 (intersection over the larger
token set), no live same-tier record scores strictly higher, ties
resolve to the first-encountered record in cursor order, and null is
returned exactly when no live same-tier record exceeds 0.7. -/
theorem C5_fuzzy_match_amended
    (now : Nat) (cache : List CachedExplanation)
    (store : OfflineStorage.ExplanationStore) (q : String) (lvl : ComplexityLevel)
    (hnoexact : ∀ e ∈ cache, ¬ (e.question = normalize q ∧ e.complexity_level = lvl))
    (hno1 : ∀ p ∈ store.entries, ¬ OfflineStorage.CACHE_EXPIRY < now - p.2.cached_at →
        p.2.complexity_level = lvl →
        OfflineStorage.scoreEqOne
          (OfflineStorage.calculateSimilarity (normalize q) p.2.question) = false) :
    (∀ e, CacheService.get now cache q lvl = some e →
      (e.complexity_level = lvl ∧ CacheService.isExpired now e = false ∧
        CacheService.isSimilar (normalize q) e.question = true) ∧
      ∃ pre post, cache = pre ++ e :: post ∧
        ∀ x ∈ pre, ¬ (x.complexity_level = lvl ∧ CacheService.isExpired now x = false ∧
          CacheService.isSimilar (normalize q) x.question = true)) ∧
    (CacheService.get now cache q lvl = none ↔
      ∀ e ∈ cache, ¬ (e.complexity_level = lvl ∧ CacheService.isExpired now e = false ∧
        CacheService.isSimilar (normalize q) e.question = true)) ∧
    (∀ b, OfflineStorage.getCachedExplanation now store q lvl = some b →
      OfflineStorage.scoreAboveThreshold
        (OfflineStorage.calculateSimilarity (normalize q) b.question) = true ∧
      (∀ p ∈ store.entries, ¬ OfflineStorage.CACHE_EXPIRY < now - p.2.cached_at →
        p.2.complexity_level = lvl →
        OfflineStorage.scoreGt
          (OfflineStorage.calculateSimilarity (normalize q) p.2.question)
          (OfflineStorage.calculateSimilarity (normalize q) b.question) = false) ∧
      ∃ pre i post, OfflineStorage.byQuestionOrder store.entries = pre ++ (i, b) :: post ∧
        ∀ p ∈ pre, ¬ OfflineStorage.CACHE_EXPIRY < now - p.2.cached_at →
          p.2.complexity_level = lvl →
          OfflineStorage.scoreGt
            (OfflineStorage.calculateSimilarity (normalize q) b.question)
            (OfflineStorage.calculateSimilarity (normalize q) p.2.question) = true) ∧
    (OfflineStorage.getCachedExplanation now store q lvl = none ↔
      ∀ p ∈ store.entries, ¬ OfflineStorage.CACHE_EXPIRY < now - p.2.cached_at →
        p.2.complexity_level = lvl →
        OfflineStorage.scoreAboveThreshold
          (OfflineStorage.calculateSimilarity (normalize q) p.2.question) = false) := by
  have hperm : List.Perm (OfflineStorage.byQuestionOrder store.entries) store.entries :=
    List.perm_insertionSort _ _
  have hno1l : ∀ p ∈ OfflineStorage.byQuestionOrder store.entries,
      ¬ OfflineStorage.CACHE_EXPIRY < now - p.2.cached_at →
      p.2.complexity_level = lvl →
      OfflineStorage.scoreEqOne
        (OfflineStorage.calculateSimilarity (normalize q) p.2.question) = false :=
    fun p hp => hno1 p ((List.Perm.mem_iff hperm).mp hp)
  have hfind : cache.find? (fun item =>
      item.question = normalize q ∧ item.complexity_level = lvl) = none := by
    rw [List.find?_eq_none]
    intro x hx
    simp only [decide_eq_true_eq]
    exact hnoexact x hx
  refine ⟨?_, ?_, ?_, ?_⟩
  · intro e h
    simp only [CacheService.get, hfind] at h
    unfold CacheService.similarMatch at h
    rcases find?_first _ cache e h with ⟨hpe, pre, post, heq, hpre⟩
    constructor
    · simpa using hpe
    · refine ⟨pre, post, heq, ?_⟩
      intro x hx
      have := hpre x hx
      simpa using this
  · simp only [CacheService.get, hfind]
    unfold CacheService.similarMatch
    rw [List.find?_eq_none]
    constructor
    · intro hall e he
      have := hall e he
      simpa using this
    · intro hall e he
      have := hall e he
      simpa using this
  · intro b h
    unfold OfflineStorage.getCachedExplanation at h
    have hmax := OfflineStorage.getLoop_max now (normalize q) lvl
      (OfflineStorage.byQuestionOrder store.entries) none (0, 1) b Nat.one_pos
      (by intro m hm; cases hm) hno1l h
    refine ⟨hmax.1, ?_, ?_⟩
    · intro p hp hplive hplvl
      exact hmax.2.2 p ((List.Perm.mem_iff hperm).mpr hp) hplive hplvl
    · rcases OfflineStorage.getLoop_first_max now (normalize q) lvl
        (OfflineStorage.byQuestionOrder store.entries) none (0, 1) b Nat.one_pos
        (by intro m hm; cases hm) hno1l h with hl | ⟨pre, i, post, heq, _, hpre⟩
      · cases hl
      · exact ⟨pre, i, post, heq, hpre⟩
  · constructor
    · intro hnone p hp hplive hplvl
      cases hthr : OfflineStorage.scoreAboveThreshold
          (OfflineStorage.calculateSimilarity (normalize q) p.2.question) with
      | false => rfl
      | true =>
        exfalso
        rcases OfflineStorage.getLoop_exists now (normalize q) lvl
          (OfflineStorage.byQuestionOrder store.entries)
          ⟨p, (List.Perm.mem_iff hperm).mpr hp, hplive, hplvl, hthr⟩ with ⟨b, hb⟩
        unfold OfflineStorage.getCachedExplanation at hnone
        rw [hnone] at hb
        cases hb
    · intro hall
      unfold OfflineStorage.getCachedExplanation
      refine OfflineStorage.getLoop_stay now (normalize q) lvl _ ?_ none (0, 1)
      intro p hp
      have hpm : p ∈ store.entries := (List.Perm.mem_iff hperm).mp hp
      by_cases hexp : OfflineStorage.CACHE_EXPIRY < now - p.2.cached_at
      · exact Or.inl hexp
      · by_cases hplvl : p.2.complexity_level = lvl
        · exact Or.inr (Or.inr (hall p hpm hexp hplvl))
        · exact Or.inr (Or.inl hplvl)

/-- Witness for C5 (amended): the query "gggg hhhh iiii jjjj" against a
single cached question "gggg hhhh iiii" — overlap 3/3 over the smaller
set in the in-memory variant, 3/4 over the larger set in the durable
variant — is served by both variants. -/
theorem C5_fuzzy_match_amended_witness :
    ((⟨"gggg hhhh iiii", "A", .normal, 0⟩ : CachedExplanation).complexity_level =
        ComplexityLevel.normal ∧
      CacheService.isExpired 0 ⟨"gggg hhhh iiii", "A", .normal, 0⟩ = false ∧
      CacheService.isSimilar (normalize "gggg hhhh iiii jjjj") "gggg hhhh iiii" = true) ∧
    OfflineStorage.scoreAboveThreshold
      (OfflineStorage.calculateSimilarity (normalize "gggg hhhh iiii jjjj")
        "gggg hhhh iiii") = true := by
  have h := C5_fuzzy_match_amended 0 [⟨"gggg hhhh iiii", "A", .normal, 0⟩]
    ⟨2, [(1, ⟨"gggg hhhh iiii", "A", .normal, 0⟩)]⟩ "gggg hhhh iiii jjjj" .normal
    (by decide) (by decide)
  refine ⟨(h.1 ⟨"gggg hhhh iiii", "A", .normal, 0⟩ (by decide)).1, ?_⟩
  exact (h.2.2.1 ⟨"gggg hhhh iiii", "A", .normal, 0⟩ (by decide)).1

end Stupify
